import Mathlib

/-!
Verification of the agent coordination and conflict-resolution engine
(`backend/app/agents/coordinator.py`, `conflict_resolver.py`, `base_agent.py`).

The Python code is shallowly embedded: design data (Python dicts/lists/
scalars produced by agents) is modelled by the JSON-like type `JValue`;
Python `dict`s become association lists preserving insertion order (Python
dicts preserve insertion order and have unique keys); Python floats are
modelled as rationals (the code only stores and compares these numbers,
never accumulating rounding); exceptions become `Except String`;
`async`/`await` concurrency is modelled as deterministic in-order execution
(cooperative scheduling; the proved properties do not depend on intra-wave
ordering).  Wall-clock fields (`created_at`, `execution_time`) are not
modelled.
-/

set_option maxHeartbeats 1000000

/-- JSON-like values: the shape of the opaque design-data payloads the
coordinator moves between agents. -/
inductive JValue where
  | str (s : String)
  | num (q : Rat)
  | bool (b : Bool)
  | null
  | list (items : List JValue)
  | obj (entries : List (String × JValue))

/-- A Python dict with string keys, as an insertion-ordered association list. -/
abbrev JObj := List (String × JValue)

/-- Python `d.get(k)` / `k in d` lookup on an association list (first match). -/
def alookup {α : Type _} (k : String) : List (String × α) → Option α
  | [] => none
  | (k2, v) :: rest => if k2 = k then some v else alookup k rest

/-- Python `d[k] = v`: replace the value at an existing key in place,
append a new key at the end. -/
def aset {α : Type _} (k : String) (v : α) : List (String × α) → List (String × α)
  | [] => [(k, v)]
  | (k2, v2) :: rest => if k2 = k then (k, v) :: rest else (k2, v2) :: aset k v rest

/-- `AgentCoordinator._deep_merge` (coordinator.py:332-338): merge `updates`
into `base`; when both sides hold a dict at a key, merge recursively,
otherwise the update value overwrites.  The Python code mutates `base` in
place; this is the corresponding value-level function. -/
def deep_merge : JObj → JObj → JObj
  | base, [] => base
  | base, (k, JValue.obj vo) :: rest =>
      (match alookup k base with
       | some (JValue.obj bo) => deep_merge (aset k (JValue.obj (deep_merge bo vo)) base) rest
       | _ => deep_merge (aset k (JValue.obj vo) base) rest)
  | base, (k, v) :: rest => deep_merge (aset k v base) rest
termination_by _b u => sizeOf u
decreasing_by all_goals (simp only [List.cons.sizeOf_spec, Prod.mk.sizeOf_spec, JValue.obj.sizeOf_spec]; omega)

/-- No string occurs twice (Python dict keys are unique). -/
def nodupKeys : List String → Bool
  | [] => true
  | k :: ks => (!ks.contains k) && nodupKeys ks

mutual

/-- Every object nested inside the value has unique keys (true of any value
that came from a Python dict structure). -/
def wfVal : JValue → Bool
  | JValue.str _ => true
  | JValue.num _ => true
  | JValue.bool _ => true
  | JValue.null => true
  | JValue.list items => wfArr items
  | JValue.obj entries => nodupKeys (entries.map Prod.fst) && wfEntries entries

/-- `wfVal` on each element of a list. -/
def wfArr : List JValue → Bool
  | [] => true
  | v :: vs => wfVal v && wfArr vs

/-- `wfVal` on each value of an association list. -/
def wfEntries : List (String × JValue) → Bool
  | [] => true
  | (_, v) :: rest => wfVal v && wfEntries rest

end

/-- A well-formed Python dict: unique keys at the top level and in every
nested object. -/
def wfObj (o : JObj) : Bool := nodupKeys (o.map Prod.fst) && wfEntries o

/-! ## Data model (`base_agent.py`) -/

/-- `ConflictType` (base_agent.py:32-40). -/
inductive ConflictType where
  | SPATIAL
  | STRUCTURAL
  | FUNCTIONAL
  | CODE
  | COST
  | AESTHETIC
  | MEP_CLEARANCE
deriving DecidableEq

/-- `ConflictPriority` (base_agent.py:43-49). -/
inductive ConflictPriority where
  | CRITICAL
  | HIGH
  | MEDIUM
  | LOW
  | OPTIONAL
deriving DecidableEq

/-- The numeric enum values of `ConflictPriority`. -/
def ConflictPriority.value : ConflictPriority → Nat
  | .CRITICAL => 100
  | .HIGH => 80
  | .MEDIUM => 60
  | .LOW => 40
  | .OPTIONAL => 20

/-- `AgentStatus` (base_agent.py:20-29). -/
inductive AgentStatus where
  | IDLE
  | ANALYZING
  | DESIGNING
  | VALIDATING
  | OPTIMIZING
  | RESOLVING_CONFLICT
  | COMPLETED
  | FAILED
deriving DecidableEq

/-- `CoordinationPhase` (coordinator.py:23-31). -/
inductive CoordinationPhase where
  | INITIALIZATION
  | ARCHITECTURAL
  | PARALLEL_ANALYSIS
  | CONFLICT_RESOLUTION
  | REFINEMENT
  | INTEGRATION
  | FINALIZATION
deriving DecidableEq

/-- `AgentDecision` (base_agent.py:79-89); `timestamp`/`context`/`alternatives`
are never read by the coordinator and are not modelled. -/
structure AgentDecision where
  id : String
  agent_name : String
  decision : String
  reasoning : String
  confidence : Rat
deriving DecidableEq

/-- `Conflict` (base_agent.py:52-64); `created_at`/`suggested_resolutions` are
never read by the coordinator and are not modelled.  `affected_elements` holds
the string renderings of the element ids. -/
structure Conflict where
  id : String
  type : ConflictType
  priority : ConflictPriority
  source_agent : String
  target_agent : String
  description : String
  location : JObj
  affected_elements : List String

/-- `Resolution` (base_agent.py:67-76); `resolved_at` not modelled.  `changes`
maps an agent name to the dict patch for that agent (every resolver-built
`changes` value is a dict, and `apply_resolutions` merges it as one). -/
structure Resolution where
  conflict_id : String
  resolution_type : String
  description : String
  changes : List (String × JObj)
  resolved_by : String
  confidence : Rat

/-- `AgentOutput` (base_agent.py:92-104); `created_at`/`execution_time` not
modelled; metric values are the numbers the agents report. -/
structure AgentOutput where
  agent_name : String
  status : AgentStatus
  design_data : JObj
  geometry : Option JObj
  metrics : List (String × Rat)
  decisions : List AgentDecision
  conflicts : List Conflict
  warnings : List String

/-! ## Conflict resolver (`conflict_resolver.py`) -/

/-- `ConflictResolver.PRIORITY_WEIGHTS` (conflict_resolver.py:38-44). -/
def PRIORITY_WEIGHTS : ConflictPriority → Nat
  | .CRITICAL => 100
  | .HIGH => 80
  | .MEDIUM => 60
  | .LOW => 40
  | .OPTIONAL => 20

/-- `ConflictResolver.AGENT_HIERARCHY` (conflict_resolver.py:47-53), read via
`.get(name, 10)` so unknown agents rank 10. -/
def AGENT_HIERARCHY (name : String) : Nat :=
  if name = "structural" then 1
  else if name = "mep" then 2
  else if name = "architectural" then 3
  else if name = "interior" then 4
  else if name = "landscape" then 5
  else 10

/-- `ResolutionStrategy` (conflict_resolver.py:21-28). -/
structure ResolutionStrategy where
  name : String
  conflict_types : List ConflictType
  priority_threshold : ConflictPriority
  auto_resolve : Bool
  resolution_func : String

/-- `ConflictResolver._define_strategies` (conflict_resolver.py:79-124). -/
def define_strategies : List ResolutionStrategy :=
  [ ⟨"structural_safety", [ConflictType.STRUCTURAL], ConflictPriority.CRITICAL, true, "_resolve_structural_safety"⟩,
    ⟨"code_compliance", [ConflictType.CODE], ConflictPriority.HIGH, true, "_resolve_code_compliance"⟩,
    ⟨"spatial_optimization", [ConflictType.SPATIAL], ConflictPriority.MEDIUM, false, "_resolve_spatial"⟩,
    ⟨"mep_routing", [ConflictType.MEP_CLEARANCE], ConflictPriority.HIGH, true, "_resolve_mep_clearance"⟩,
    ⟨"cost_optimization", [ConflictType.COST], ConflictPriority.LOW, false, "_resolve_cost"⟩,
    ⟨"aesthetic_balance", [ConflictType.AESTHETIC], ConflictPriority.OPTIONAL, false, "_resolve_aesthetic"⟩ ]

/-- The outcome of one successful LLM negotiation round, after
`json.loads` and the `.get(...)` defaults of conflict_resolver.py:401-408
have been applied.  `none` models `llm.generate` raising or returning
malformed JSON, which the source catches and turns into the hierarchy
fallback. -/
structure NegotiationResult where
  resolution_type : String
  description : String
  changes : List (String × JObj)
  confidence : Rat

/-- The state a `ConflictResolver` instance is constructed with
(conflict_resolver.py:55-77).  `agents` and `outputs` are only used to build
LLM prompt text and dead local variables, never to compute a resolution, so
they are not modelled; `llm` is the abstracted negotiation capability
(`none` = no client configured). -/
structure ConflictResolver where
  context : JObj
  llm : Option (Conflict → Option NegotiationResult)

/-- `ConflictResolver._find_strategy` (conflict_resolver.py:180-187): first
strategy whose type list contains the conflict's type and whose priority
threshold is not above the conflict's priority weight. -/
def find_strategy (c : Conflict) : Option ResolutionStrategy :=
  define_strategies.find? (fun s =>
    s.conflict_types.contains c.type &&
    decide (PRIORITY_WEIGHTS s.priority_threshold ≤ PRIORITY_WEIGHTS c.priority))

/-- `ConflictResolver._default_resolution` (conflict_resolver.py:450-459). -/
def default_resolution (c : Conflict) : Resolution :=
  ⟨c.id, "accept", "Conflict accepted pending manual review", [], "default", 0.5⟩

/-- `ConflictResolver._hierarchy_resolution` (conflict_resolver.py:415-448). -/
def hierarchy_resolution (c : Conflict) (source_priority target_priority : Nat) : Resolution :=
  let winner := if source_priority < target_priority then c.source_agent else c.target_agent
  let loser := if source_priority < target_priority then c.target_agent else c.source_agent
  ⟨c.id, "modify",
   winner ++ " takes priority. " ++ loser ++ " must adapt design.",
   [(loser, [("adaptations", JValue.list [JValue.obj
      [("reason", JValue.str "hierarchy_resolution"),
       ("adapt_to", JValue.str winner),
       ("affected_elements", JValue.list (c.affected_elements.map JValue.str))]])])],
   "hierarchy_resolution", 0.70⟩

/-- `ConflictResolver._negotiate_resolution` (conflict_resolver.py:334-413):
ask the LLM when present; on absence or failure fall back to the
hierarchy-based resolution. -/
def negotiate_resolution (R : ConflictResolver) (c : Conflict) : Resolution :=
  let source_priority := AGENT_HIERARCHY c.source_agent
  let target_priority := AGENT_HIERARCHY c.target_agent
  match R.llm with
  | some gen =>
      match gen c with
      | some r => ⟨c.id, r.resolution_type, r.description, r.changes, "llm_negotiation", r.confidence⟩
      | none => hierarchy_resolution c source_priority target_priority
  | none => hierarchy_resolution c source_priority target_priority

/-- `ConflictResolver._resolve_structural_safety` (conflict_resolver.py:200-227). -/
def resolve_structural_safety (c : Conflict) : Resolution :=
  ⟨c.id, "modify",
   "Structural safety takes priority. " ++ c.target_agent ++ " must adapt.",
   [(c.target_agent, [("adaptations", JValue.list [JValue.obj
      [("reason", JValue.str "structural_safety"),
       ("affected_elements", JValue.list (c.affected_elements.map JValue.str)),
       ("action", JValue.str "modify_around_structure")]])])],
   "conflict_resolver", 0.95⟩

/-- `ConflictResolver._resolve_code_compliance` (conflict_resolver.py:229-254). -/
def resolve_code_compliance (c : Conflict) : Resolution :=
  ⟨c.id, "modify",
   "Design modified for code compliance: " ++ c.description,
   [(c.source_agent, [("code_adjustments", JValue.list [JValue.obj
      [("elements", JValue.list (c.affected_elements.map JValue.str)),
       ("action", JValue.str "modify_for_compliance"),
       ("code_reference", JValue.str c.description)]])])],
   "conflict_resolver", 0.90⟩

/-- `ConflictResolver._resolve_mep_clearance` (conflict_resolver.py:256-289):
reroute the first affected element, or fall back to the default resolution
when there is none. -/
def resolve_mep_clearance (c : Conflict) : Resolution :=
  match c.affected_elements with
  | mep_element :: restElements =>
      ⟨c.id, "relocate",
       "MEP element " ++ mep_element ++ " will be rerouted to avoid conflict",
       [("mep", [("reroutes", JValue.list [JValue.obj
          [("element_id", JValue.str mep_element),
           ("action", JValue.str "find_alternative_path"),
           ("avoid", JValue.list (restElements.map JValue.str)),
           ("clearance_required", JValue.num 0.15)]])])],
       "conflict_resolver", 0.85⟩
  | [] => default_resolution c

/-- `ConflictResolver._resolve_spatial` (conflict_resolver.py:291-298). -/
def resolve_spatial (R : ConflictResolver) (c : Conflict) : Resolution :=
  match R.llm with
  | some _ => negotiate_resolution R c
  | none => default_resolution c

/-- Python `d.get(k, default)` for a numeric value.  A non-numeric value at
the key would make the arithmetic below raise in Python; such data never
reaches this code path and is modelled by the default. -/
def jGetNum (o : JObj) (k : String) (d : Rat) : Rat :=
  match alookup k o with
  | some (JValue.num q) => q
  | _ => d

/-- `ConflictResolver._resolve_cost` (conflict_resolver.py:300-325). -/
def resolve_cost (R : ConflictResolver) (c : Conflict) : Resolution :=
  let budget := jGetNum R.context "budget" 0
  ⟨c.id, "modify",
   "Cost optimization applied while maintaining design quality",
   [(c.source_agent, [("cost_optimizations", JValue.list [JValue.obj
      [("action", JValue.str "value_engineer"),
       ("target_saving", JValue.num (budget * 0.05)),
       ("maintain_quality", JValue.bool true)]])])],
   "conflict_resolver", 0.75⟩

/-- `ConflictResolver._resolve_aesthetic` (conflict_resolver.py:327-332). -/
def resolve_aesthetic (R : ConflictResolver) (c : Conflict) : Resolution :=
  negotiate_resolution R c

/-- `ConflictResolver._apply_strategy` (conflict_resolver.py:189-198):
`getattr` dispatch on the strategy's `resolution_func`; a missing method
falls back to the default resolution. -/
def apply_strategy (R : ConflictResolver) (s : ResolutionStrategy) (c : Conflict) : Resolution :=
  if s.resolution_func = "_resolve_structural_safety" then resolve_structural_safety c
  else if s.resolution_func = "_resolve_code_compliance" then resolve_code_compliance c
  else if s.resolution_func = "_resolve_mep_clearance" then resolve_mep_clearance c
  else if s.resolution_func = "_resolve_spatial" then resolve_spatial R c
  else if s.resolution_func = "_resolve_cost" then resolve_cost R c
  else if s.resolution_func = "_resolve_aesthetic" then resolve_aesthetic R c
  else default_resolution c

/-- `ConflictResolver.resolve` (conflict_resolver.py:151-178): rule-based
resolution for auto-resolvable strategies, LLM negotiation otherwise.  Every
branch produces a `Resolution`, so the function is total. -/
def resolve (R : ConflictResolver) (c : Conflict) : Resolution :=
  match find_strategy c with
  | some s => if s.auto_resolve then apply_strategy R s c else negotiate_resolution R c
  | none => negotiate_resolution R c

/-- Stable descending insertion by `PRIORITY_WEIGHTS`: the new conflict goes
after every already-placed conflict of strictly higher weight and before the
first conflict of equal or lower weight. -/
def insertByWeight (c : Conflict) : List Conflict → List Conflict
  | [] => [c]
  | d :: ds =>
      if PRIORITY_WEIGHTS c.priority < PRIORITY_WEIGHTS d.priority
      then d :: insertByWeight c ds
      else c :: d :: ds

/-- `sorted(conflicts, key=lambda c: PRIORITY_WEIGHTS[c.priority], reverse=True)`
(conflict_resolver.py:137-141).  Python's `sorted` is a stable sort; with
`reverse=True` it orders by descending key while equal-key elements keep
their input order, which is exactly this stable insertion sort. -/
def sortConflicts : List Conflict → List Conflict
  | [] => []
  | c :: cs => insertByWeight c (sortConflicts cs)

/-- `ConflictResolver.resolve_all` (conflict_resolver.py:126-149).  The
`if resolution:` guard always passes: `resolve` always returns a `Resolution`
dataclass instance, which is truthy. -/
def resolve_all (R : ConflictResolver) (conflicts : List Conflict) : List Resolution :=
  (sortConflicts conflicts).map (resolve R)

/-! ## Coordinator (`coordinator.py`) -/

/-- Python `d.get(k, {})` where the result is used as a dict.  The source
assumes dict-shaped data here; a non-dict value would raise on use. -/
def jGetObj (o : JObj) (k : String) : JObj :=
  match alookup k o with
  | some (JValue.obj e) => e
  | _ => []

/-- Python `d.get(k, [])` where the result is iterated as a list. -/
def jGetList (o : JObj) (k : String) : List JValue :=
  match alookup k o with
  | some (JValue.list l) => l
  | _ => []

/-- A design element used as a dict (columns, spaces, ducts, beams). -/
def asObj : JValue → JObj
  | JValue.obj e => e
  | _ => []

/-- Python `str(v)` as used inside the conflict-id f-strings.  Container
renderings are abbreviated; ids in practice are strings or numbers, and
only injectivity per value matters for the claims proved here. -/
def pyStr : JValue → String
  | JValue.str s => s
  | JValue.num q => toString q
  | JValue.bool b => if b then "True" else "False"
  | JValue.null => "None"
  | JValue.list _ => "[...]"
  | JValue.obj _ => "{...}"

/-- `str(d.get(k))`: Python renders a missing key's `None` as "None". -/
def jGetRepr (o : JObj) (k : String) : String :=
  match alookup k o with
  | some v => pyStr v
  | none => "None"

/-- `AgentCoordinator._point_in_space` (coordinator.py:267-279). -/
def point_in_space (point : JObj) (space : JObj) : Bool :=
  if point.isEmpty || space.isEmpty then false
  else
    let bounds := jGetObj space "bounds"
    let x := jGetNum point "x" 0
    let y := jGetNum point "y" 0
    decide (jGetNum bounds "min_x" 0 ≤ x) && decide (x ≤ jGetNum bounds "max_x" 0) &&
    decide (jGetNum bounds "min_y" 0 ≤ y) && decide (y ≤ jGetNum bounds "max_y" 0)

/-- `AgentCoordinator._elements_intersect` (coordinator.py:281-298):
axis-aligned bounding-box test. -/
def elements_intersect (elem1 elem2 : JObj) : Bool :=
  let bounds1 := jGetObj elem1 "bounds"
  let bounds2 := jGetObj elem2 "bounds"
  if bounds1.isEmpty || bounds2.isEmpty then false
  else
    !(decide (jGetNum bounds1 "max_x" 0 < jGetNum bounds2 "min_x" 0) ||
      decide (jGetNum bounds2 "max_x" 0 < jGetNum bounds1 "min_x" 0) ||
      decide (jGetNum bounds1 "max_y" 0 < jGetNum bounds2 "min_y" 0) ||
      decide (jGetNum bounds2 "max_y" 0 < jGetNum bounds1 "min_y" 0) ||
      decide (jGetNum bounds1 "max_z" 0 < jGetNum bounds2 "min_z" 0) ||
      decide (jGetNum bounds2 "max_z" 0 < jGetNum bounds1 "min_z" 0))

/-- `space.get("type") in ["open_office", "lobby", "atrium"]`. -/
def isOpenSpaceType (space : JObj) : Bool :=
  match alookup "type" space with
  | some (JValue.str s) => s = "open_office" || s = "lobby" || s = "atrium"
  | _ => false

/-- `duct.get("path", [{}])[0]` (coordinator.py:261).  An existing empty
`path` list would raise IndexError in Python; modelled with the empty dict. -/
def ductLocation (duct : JObj) : JObj :=
  let path := match alookup "path" duct with
    | some (JValue.list l) => l
    | _ => [JValue.obj []]
  asObj (path.headD (JValue.obj []))

/-- `AgentCoordinator.detect_conflicts` (coordinator.py:209-265): a pure scan
of the current outputs map.  Conflicts are produced in the deterministic
nested-loop order of the source (columns × spaces, then ducts × beams). -/
def detect_conflicts (outputs : List (String × AgentOutput)) : List Conflict :=
  let spatial : List Conflict :=
    match alookup "architectural" outputs, alookup "structural" outputs with
    | some archOut, some structOut =>
        let columns := jGetList structOut.design_data "columns"
        let spaces := jGetList archOut.design_data "spaces"
        (columns.map (fun colV =>
          let col := asObj colV
          let col_pos := jGetObj col "position"
          (spaces.map (fun spaceV =>
            let space := asObj spaceV
            if point_in_space col_pos space && isOpenSpaceType space then
              [Conflict.mk
                ("spatial_col_" ++ jGetRepr col "id" ++ "_" ++ jGetRepr space "id")
                ConflictType.SPATIAL ConflictPriority.MEDIUM
                "structural" "architectural"
                ("Column " ++ jGetRepr col "id" ++ " conflicts with open space " ++ jGetRepr space "id")
                col_pos
                [jGetRepr col "id", jGetRepr space "id"]]
            else [])).flatten)).flatten
    | _, _ => []
  let mepStruct : List Conflict :=
    match alookup "mep" outputs, alookup "structural" outputs with
    | some mepOut, some structOut =>
        let ducts := jGetList mepOut.design_data "ductwork"
        let beams := jGetList structOut.design_data "beams"
        (ducts.map (fun ductV =>
          let duct := asObj ductV
          (beams.map (fun beamV =>
            let beam := asObj beamV
            if elements_intersect duct beam then
              [Conflict.mk
                ("mep_struct_" ++ jGetRepr duct "id" ++ "_" ++ jGetRepr beam "id")
                ConflictType.MEP_CLEARANCE ConflictPriority.HIGH
                "mep" "structural"
                ("Duct " ++ jGetRepr duct "id" ++ " intersects beam " ++ jGetRepr beam "id")
                (ductLocation duct)
                [jGetRepr duct "id", jGetRepr beam "id"]]
            else [])).flatten)).flatten
    | _, _ => []
  spatial ++ mepStruct

/-- The inner loop of `AgentCoordinator.apply_resolutions`
(coordinator.py:323-330): merge each agent's patch into that agent's design
data, skipping agents absent from the outputs map. -/
def apply_changes (outputs : List (String × AgentOutput)) (changes : List (String × JObj)) :
    List (String × AgentOutput) :=
  changes.foldl (fun outs ac =>
    match alookup ac.1 outs with
    | some o => aset ac.1 { o with design_data := deep_merge o.design_data ac.2 } outs
    | none => outs) outputs

/-- `AgentCoordinator.apply_resolutions` (coordinator.py:318-330): only
resolutions with `resolution_type == "modify"` are applied. -/
def apply_resolutions (outputs : List (String × AgentOutput)) (resolutions : List Resolution) :
    List (String × AgentOutput) :=
  resolutions.foldl (fun outs r =>
    if r.resolution_type = "modify" then apply_changes outs r.changes else outs) outputs

/-- `o.decisions[-1].confidence if o.decisions else 0.5` (coordinator.py:359). -/
def lastDecisionConfidence (o : AgentOutput) : Rat :=
  match o.decisions.getLast? with
  | some d => d.confidence
  | none => 0.5

/-- The fields of the coordinator's mutable state that the claims touch
(`self.outputs`, `self.all_conflicts`, `self.resolved_conflicts`,
`self.phase`, `self.iteration`). -/
structure CoordState where
  outputs : List (String × AgentOutput)
  all_conflicts : List Conflict
  resolved_conflicts : List Resolution
  phase : CoordinationPhase
  iteration : Nat

/-- `AgentCoordinator.check_convergence` (coordinator.py:340-363).  Returns
false before the second iteration; true on an empty conflict set; false
while any CRITICAL or HIGH conflict remains; otherwise compares the average
of the agents' latest decision confidences with the threshold. -/
def check_convergence (s : CoordState) (threshold : Rat) : Bool :=
  if s.iteration < 2 then false
  else if s.all_conflicts.length = 0 then true
  else if !(s.all_conflicts.filter (fun c =>
        decide (c.priority = ConflictPriority.CRITICAL) ||
        decide (c.priority = ConflictPriority.HIGH))).isEmpty then false
  else
    let avg_confidence :=
      (s.outputs.map (fun p => lastDecisionConfidence p.2)).sum /
        ((max s.outputs.length 1 : Nat) : Rat)
    decide (threshold ≤ avg_confidence)

/-! ## Dependency scheduler (`AgentCoordinator.get_execution_order`) -/

/-- The registered agents as `(name, dependencies)` pairs, in registration
order; a Python dict, so names are unique. -/
abbrev AgentReg := List (String × List String)

/-- The agents of `remaining` whose whole dependency set is in `executed`
(coordinator.py:119-124). -/
def readyAgents (remaining : AgentReg) (executed : List String) : AgentReg :=
  remaining.filter (fun a => a.2.all (fun d => executed.contains d))

/-- The while-loop of `get_execution_order` (coordinator.py:117-133), with
fuel: each pass removes at least one agent, so `remaining.length` passes
suffice (the coverage theorem below proves it).  Each produced wave is
paired with the flag of the forced branch, where the source logs
"Could not resolve dependencies" and schedules one arbitrary remaining
agent (`list(remaining)[:1]`, modelled as the first) on its own.  Python
iterates `remaining` as a hash set; the list order here is one concrete
iteration order, and the proved properties do not depend on it. -/
def scheduleAux : Nat → AgentReg → List String → List (List String × Bool)
  | 0, _, _ => []
  | _, [], _ => []
  | Nat.succ fuel, hd :: tl, executed =>
      if (readyAgents (hd :: tl) executed).isEmpty then
        ([hd.1], true) ::
          scheduleAux fuel ((hd :: tl).filter (fun a => !([hd.1].contains a.1)))
            (executed ++ [hd.1])
      else
        ((readyAgents (hd :: tl) executed).map Prod.fst, false) ::
          scheduleAux fuel
            ((hd :: tl).filter
              (fun a => !(((readyAgents (hd :: tl) executed).map Prod.fst).contains a.1)))
            (executed ++ (readyAgents (hd :: tl) executed).map Prod.fst)

/-- `AgentCoordinator.get_execution_order` (coordinator.py:105-135). -/
def get_execution_order (agents : AgentReg) : List (List String) :=
  (scheduleAux agents.length agents []).map Prod.fst

/-- The waves at which `get_execution_order` logged a
"Could not resolve dependencies" warning (one per forced wave). -/
def execution_order_warnings (agents : AgentReg) : List (List String) :=
  ((scheduleAux agents.length agents []).filter Prod.snd).map Prod.fst

/-- The wave index of an agent: index of the first wave containing it
(`order.length` when unscheduled). -/
def waveIndex (order : List (List String)) (name : String) : Nat :=
  order.findIdx (fun w => w.contains name)

/-- One agent directly depends on another (an edge of the declared
dependency graph). -/
def DependsOn (agents : AgentReg) (x y : String) : Prop :=
  ∃ ds, (x, ds) ∈ agents ∧ y ∈ ds

/-- The declared dependency graph has no (directed) cycle: the transitive
closure of `DependsOn` is irreflexive. -/
def AcyclicDeps (agents : AgentReg) : Prop :=
  ∀ x, ¬ Relation.TransGen (DependsOn agents) x x

/-! ## The full coordination pipeline (`AgentCoordinator.run`) -/

/-- A registered agent: its metadata plus its `run` behaviour
(`BaseDesignAgent.run` is abstract domain code that may raise; it receives
the merged inputs and the dict of dependency outputs,
coordinator.py:158-168). -/
structure CoordAgent where
  name : String
  dependencies : List String
  runFn : JObj → List (String × JObj) → Except String AgentOutput

/-- Everything `AgentCoordinator.run` depends on: the registered agents (in
registration order, unique names), the project context, the two config
values (`max_iterations` default 5, `convergence_threshold` default 0.95),
and the integration step.  `integrate_override` models test code replacing
`integrate_designs` with a raising stub (`none` = the source integration,
which is total). -/
structure CoordEnv where
  agents : List CoordAgent
  context : JObj
  max_iterations : Nat
  convergence_threshold : Rat
  integrate_override : Option (CoordState → Except String JObj)

/-- `self.agents.get(agent_name)`. -/
def findAgent (env : CoordEnv) (name : String) : Option CoordAgent :=
  env.agents.find? (fun a => a.name == name)

/-- `AgentCoordinator.run_agent` (coordinator.py:137-174): gather dependency
outputs, run the agent, store its output and collect its conflicts.  An
exception from the agent propagates. -/
def run_agent (env : CoordEnv) (s : CoordState) (name : String) (inputs : JObj) :
    Except String CoordState :=
  match findAgent env name with
  | none => Except.error ("Agent not found: " ++ name)
  | some agent =>
      let dep_outputs := agent.dependencies.filterMap
        (fun d => (alookup d s.outputs).map (fun o => (d, o.design_data)))
      match agent.runFn inputs dep_outputs with
      | Except.error e => Except.error e
      | Except.ok output =>
          Except.ok { s with
            outputs := aset name output s.outputs,
            all_conflicts := s.all_conflicts ++ output.conflicts }

/-- `AgentCoordinator.run_parallel` (coordinator.py:176-207):
`asyncio.gather(..., return_exceptions=True)` — a failing agent is logged
and skipped, the others proceed.  Cooperative concurrency is modelled as
in-order execution. -/
def run_parallel (env : CoordEnv) (s : CoordState) (names : List String) (inputs : JObj) :
    CoordState :=
  names.foldl (fun st n =>
    match run_agent env st n inputs with
    | Except.ok st2 => st2
    | Except.error _ => st) s

/-- `AgentCoordinator.resolve_conflicts` (coordinator.py:300-316): a fresh
`ConflictResolver(self.agents, self.outputs, self.context)` — constructed
without an LLM client, so its `llm` is `None`. -/
def coordinator_resolve_conflicts (env : CoordEnv) (s : CoordState) (conflicts : List Conflict) :
    CoordState × List Resolution :=
  let resolutions := resolve_all ⟨env.context, none⟩ conflicts
  ({ s with resolved_conflicts := s.resolved_conflicts ++ resolutions }, resolutions)

/-- `d.__dict__` of an `AgentDecision` as collected by `integrate_designs`. -/
def decisionToJson (d : AgentDecision) : JValue :=
  JValue.obj
    [("id", JValue.str d.id),
     ("agent_name", JValue.str d.agent_name),
     ("decision", JValue.str d.decision),
     ("reasoning", JValue.str d.reasoning),
     ("confidence", JValue.num d.confidence)]

/-- `AgentCoordinator.integrate_designs` (coordinator.py:365-401): merge all
agent outputs into one namespaced artifact.  `if output.geometry:` skips
both `None` and an empty dict (falsy). -/
def integrate_designs (ctx : JObj) (s : CoordState) : JObj :=
  [("project", JValue.obj ctx),
   ("components", JValue.obj (s.outputs.map (fun p => (p.1, JValue.obj p.2.design_data)))),
   ("geometry", JValue.obj (s.outputs.filterMap (fun p =>
      match p.2.geometry with
      | some g => if g.isEmpty then none else some (p.1, JValue.obj g)
      | none => none))),
   ("metrics", JValue.obj
      ((s.outputs.map (fun p =>
          p.2.metrics.map (fun m => (p.1 ++ "_" ++ m.1, JValue.num m.2)))).flatten ++
       [("total_conflicts", JValue.num s.all_conflicts.length),
        ("resolved_conflicts", JValue.num s.resolved_conflicts.length),
        ("iterations", JValue.num s.iteration)])),
   ("decisions", JValue.list ((s.outputs.map (fun p => p.2.decisions.map decisionToJson)).flatten))]

/-- The integration step of `run`: the source `integrate_designs` unless a
test has replaced it with a raising stub. -/
def integrateStep (env : CoordEnv) (s : CoordState) : Except String JObj :=
  match env.integrate_override with
  | some f => f s
  | none => Except.ok (integrate_designs env.context s)

/-- The conflict-resolution while-loop of `run` (coordinator.py:442-469),
with fuel `max_iterations - iteration`: detect, accumulate, resolve, apply,
check convergence, drop resolved ids, repeat. -/
def coordination_loop (env : CoordEnv) : Nat → CoordState → CoordState
  | 0, s => s
  | Nat.succ fuel, s =>
      let s1 := { s with iteration := s.iteration + 1 }
      let new_conflicts := detect_conflicts s1.outputs
      let s2 := { s1 with all_conflicts := s1.all_conflicts ++ new_conflicts }
      if new_conflicts.isEmpty then s2
      else
        let sr := coordinator_resolve_conflicts env s2 new_conflicts
        let s3 := { sr.1 with outputs := apply_resolutions sr.1.outputs sr.2 }
        if check_convergence s3 env.convergence_threshold then s3
        else
          let resolvedIds := sr.2.map (fun r => r.conflict_id)
          coordination_loop env fuel
            { s3 with all_conflicts := s3.all_conflicts.filter (fun c => !(resolvedIds.contains c.id)) }

/-- The final-metrics dict of coordinator.py:481-488 (`execution_time`
wall-clock value modelled as 0). -/
def finalMetrics (env : CoordEnv) (s : CoordState) : JObj :=
  [("total_agents", JValue.num env.agents.length),
   ("total_iterations", JValue.num s.iteration),
   ("total_conflicts", JValue.num s.all_conflicts.length),
   ("resolved_conflicts", JValue.num s.resolved_conflicts.length),
   ("execution_time", JValue.num 0),
   ("convergence_achieved", JValue.bool (check_convergence s env.convergence_threshold))]

/-- The body of `AgentCoordinator.run`'s `try:` block (coordinator.py:416-502)
in state-passing form: the returned state is the coordinator's state at the
point the block finished or raised, and the second component is the
outcome — `Except.error e` exactly when the block raised `e`. -/
def runAux (env : CoordEnv) (inputs : JObj) : CoordState × Except String (JObj × JObj) :=
  let s0 : CoordState := ⟨[], [], [], CoordinationPhase.INITIALIZATION, 0⟩
  let execution_order := get_execution_order (env.agents.map (fun a => (a.name, a.dependencies)))
  let sA := { s0 with phase := CoordinationPhase.ARCHITECTURAL }
  match (if (env.agents.map (fun a => a.name)).contains "architectural"
         then run_agent env sA "architectural" inputs
         else Except.ok sA) with
  | Except.error e => (sA, Except.error e)
  | Except.ok s1 =>
      let s2 := { s1 with phase := CoordinationPhase.PARALLEL_ANALYSIS }
      let s3 := execution_order.foldl (fun st group =>
        let group := group.filter (fun a => a != "architectural")
        if group.isEmpty then st else run_parallel env st group inputs) s2
      let s4 := { s3 with phase := CoordinationPhase.CONFLICT_RESOLUTION }
      let s5 := coordination_loop env env.max_iterations s4
      let s6 := { s5 with phase := CoordinationPhase.INTEGRATION }
      match integrateStep env s6 with
      | Except.error e => (s6, Except.error e)
      | Except.ok final_design =>
          let s7 := { s6 with phase := CoordinationPhase.FINALIZATION }
          (s7, Except.ok (final_design, finalMetrics env s7))

/-- `CoordinationResult` (coordinator.py:34-46); wall-clock fields not
modelled. -/
structure CoordinationResult where
  success : Bool
  phase : CoordinationPhase
  iterations : Nat
  agent_outputs : List (String × AgentOutput)
  resolved_conflicts : List Resolution
  unresolved_conflicts : List Conflict
  final_design : JObj
  metrics : JObj

/-- `AgentCoordinator.run` (coordinator.py:403-516): the `try/except` —
a raised error is captured into a `success := false` result carrying the
error message and the state accumulated so far. -/
def run (env : CoordEnv) (inputs : JObj) : CoordinationResult :=
  match runAux env inputs with
  | (s, Except.ok (final_design, metrics)) =>
      ⟨true, s.phase, s.iteration, s.outputs, s.resolved_conflicts, s.all_conflicts,
       final_design, metrics⟩
  | (s, Except.error e) =>
      ⟨false, s.phase, s.iteration, s.outputs, s.resolved_conflicts, s.all_conflicts,
       [], [("error", JValue.str e)]⟩

/-- The dict patches that `apply_resolutions` addresses to agent `a`, in
application order: the `changes[a]` entries of the "modify"-type resolutions
only (used to state what `apply_resolutions` does). -/
def patchesFor (a : String) (rs : List Resolution) : List JObj :=
  ((rs.filter (fun r => r.resolution_type == "modify")).map
    (fun r => (r.changes.filter (fun e => e.1 == a)).map Prod.snd)).flatten

/-! ## Concrete sample data used by witnesses and counterexamples -/

/-- A FUNCTIONAL conflict: its type appears in no strategy of the table. -/
def cFunctional : Conflict :=
  ⟨"c_functional_1", ConflictType.FUNCTIONAL, ConflictPriority.MEDIUM, "mep", "architectural",
   "functional requirement mismatch", [], ["elem1"]⟩

/-- A resolver constructed without an LLM client, as
`AgentCoordinator.resolve_conflicts` does. -/
def resolverNoLLM : ConflictResolver := ⟨[], none⟩

/-- An architectural output with one lobby space. -/
def sampleArchOut : AgentOutput :=
  ⟨"architectural", AgentStatus.COMPLETED,
   [("spaces", JValue.list [JValue.obj
      [("id", JValue.str "s1"), ("type", JValue.str "lobby"),
       ("bounds", JValue.obj
         [("min_x", JValue.num 0), ("max_x", JValue.num 10),
          ("min_y", JValue.num 0), ("max_y", JValue.num 10)])]])],
   none, [], [], [], []⟩

/-- A structural output with one column inside that lobby. -/
def sampleStructOut : AgentOutput :=
  ⟨"structural", AgentStatus.COMPLETED,
   [("columns", JValue.list [JValue.obj
      [("id", JValue.str "c1"),
       ("position", JValue.obj [("x", JValue.num 5), ("y", JValue.num 5)])]])],
   none, [], [], [], []⟩

/-- An outputs map on which `detect_conflicts` finds one spatial conflict. -/
def sampleOutputs : List (String × AgentOutput) :=
  [("architectural", sampleArchOut), ("structural", sampleStructOut)]

/-- A coordinator environment whose integration step is forced to throw, as
the spec's failure-semantics test does. -/
def envForcedThrow : CoordEnv :=
  ⟨[], [], 5, 0.95, some (fun _ => Except.error "forced integration failure")⟩

/-- A registered agent whose `run` always raises. -/
def failingAgent : CoordAgent := ⟨"x", [], fun _ _ => Except.error "agent x failed"⟩

/-- An environment whose only agent fails during the parallel phase. -/
def envAgentFail : CoordEnv := ⟨[failingAgent], [], 5, 0.95, none⟩

/-! ## Association-list lemmas -/

theorem alookup_aset_self {α : Type _} (k : String) (v : α) :
    ∀ o : List (String × α), alookup k (aset k v o) = some v := by
  intro o
  induction o with
  | nil => simp [aset, alookup]
  | cons hd tl ih =>
    obtain ⟨k2, v2⟩ := hd
    by_cases h : k2 = k
    · simp [aset, h, alookup]
    · simp [aset, h, alookup, ih]

theorem alookup_aset_ne {α : Type _} {k k2 : String} (v : α) (h : k2 ≠ k) :
    ∀ o : List (String × α), alookup k (aset k2 v o) = alookup k o := by
  intro o
  induction o with
  | nil => simp [aset, alookup, h]
  | cons hd tl ih =>
    obtain ⟨k3, v3⟩ := hd
    by_cases h3 : k3 = k2
    · subst h3
      simp [aset, alookup, h, ih]
    · simp only [aset, if_neg h3]
      by_cases h4 : k3 = k
      · simp [alookup, h4]
      · simp [alookup, h4, ih]

theorem aset_eq_of_alookup {α : Type _} (k : String) (w : α) :
    ∀ o : List (String × α), alookup k o = some w → aset k w o = o := by
  intro o
  induction o with
  | nil => intro h; simp [alookup] at h
  | cons hd tl ih =>
    obtain ⟨k2, v2⟩ := hd
    intro h
    by_cases h2 : k2 = k
    · subst h2
      simp [alookup] at h
      simp [aset, h]
    · simp only [alookup, if_neg h2] at h
      simp [aset, h2, ih h]

theorem nodupKeys_cons {k : String} {ks : List String} :
    nodupKeys (k :: ks) = true ↔ (k ∉ ks ∧ nodupKeys ks = true) := by
  simp [nodupKeys, List.elem_iff, List.contains]

theorem alookup_of_mem_nodup {k : String} {v : JValue} :
    ∀ {o : JObj}, nodupKeys (o.map Prod.fst) = true → (k, v) ∈ o → alookup k o = some v := by
  intro o
  induction o with
  | nil => intro _ h; simp at h
  | cons hd tl ih =>
    obtain ⟨k1, v1⟩ := hd
    intro hnd hmem
    rw [List.map_cons] at hnd
    obtain ⟨hk1, hndtl⟩ := nodupKeys_cons.mp hnd
    rcases List.mem_cons.mp hmem with h | h
    · rw [Prod.mk.injEq] at h
      obtain ⟨rfl, rfl⟩ := h
      simp [alookup]
    · have hk1k : k1 ≠ k := by
        intro heq
        exact hk1 (heq ▸ (List.mem_map_of_mem Prod.fst h : (k, v).fst ∈ tl.map Prod.fst))
      simp only [alookup, if_neg hk1k]
      exact ih hndtl h

theorem alookup_deep_merge_of_not_mem (k : String) :
    ∀ (u : JObj), ∀ b : JObj, k ∉ u.map Prod.fst →
      alookup k (deep_merge b u) = alookup k b := by
  intro u
  induction u with
  | nil => intro b _; simp [deep_merge]
  | cons hd rest ih =>
    intro b hk
    obtain ⟨k1, v1⟩ := hd
    rw [List.map_cons, List.mem_cons] at hk
    push_neg at hk
    have hk1 : k1 ≠ k := fun h => hk.1 h.symm
    have hkrest : k ∉ rest.map Prod.fst := hk.2
    cases v1 with
    | obj vo =>
      simp only [deep_merge]
      split
      · rw [ih _ hkrest, alookup_aset_ne _ hk1]
      · rw [ih _ hkrest, alookup_aset_ne _ hk1]
    | str s => simp only [deep_merge]; rw [ih _ hkrest, alookup_aset_ne _ hk1]
    | num q => simp only [deep_merge]; rw [ih _ hkrest, alookup_aset_ne _ hk1]
    | bool b2 => simp only [deep_merge]; rw [ih _ hkrest, alookup_aset_ne _ hk1]
    | null => simp only [deep_merge]; rw [ih _ hkrest, alookup_aset_ne _ hk1]
    | list l => simp only [deep_merge]; rw [ih _ hkrest, alookup_aset_ne _ hk1]

theorem deep_merge_restore : ∀ (u : JObj) (b : JObj),
    wfEntries u = true →
    (∀ k v, (k, v) ∈ u → alookup k b = some v) →
    deep_merge b u = b
  | [], _b, _, _ => by simp [deep_merge]
  | (k, JValue.obj vo) :: rest, b, hwf, hlk => by
    have hb : alookup k b = some (JValue.obj vo) := hlk k _ (List.mem_cons_self _ _)
    have hwf2 : wfVal (JValue.obj vo) = true ∧ wfEntries rest = true := by
      simpa [wfEntries, Bool.and_eq_true] using hwf
    have hvo : nodupKeys (vo.map Prod.fst) = true ∧ wfEntries vo = true := by
      simpa [wfVal, Bool.and_eq_true] using hwf2.1
    have hself : deep_merge vo vo = vo :=
      deep_merge_restore vo vo hvo.2
        (fun k2 v2 h2 => alookup_of_mem_nodup hvo.1 h2)
    simp only [deep_merge, hb]
    rw [hself, aset_eq_of_alookup k _ b hb]
    exact deep_merge_restore rest b hwf2.2
      (fun k2 v2 h2 => hlk k2 v2 (List.mem_cons_of_mem _ h2))
  | (k, JValue.str sv) :: rest, b, hwf, hlk => by
    have hb : alookup k b = some (JValue.str sv) := hlk k _ (List.mem_cons_self _ _)
    have hwf2 : wfEntries rest = true := by
      simpa [wfEntries, wfVal, Bool.and_eq_true] using hwf
    simp only [deep_merge]
    rw [aset_eq_of_alookup k _ b hb]
    exact deep_merge_restore rest b hwf2
      (fun k2 v2 h2 => hlk k2 v2 (List.mem_cons_of_mem _ h2))
  | (k, JValue.num q) :: rest, b, hwf, hlk => by
    have hb : alookup k b = some (JValue.num q) := hlk k _ (List.mem_cons_self _ _)
    have hwf2 : wfEntries rest = true := by
      simpa [wfEntries, wfVal, Bool.and_eq_true] using hwf
    simp only [deep_merge]
    rw [aset_eq_of_alookup k _ b hb]
    exact deep_merge_restore rest b hwf2
      (fun k2 v2 h2 => hlk k2 v2 (List.mem_cons_of_mem _ h2))
  | (k, JValue.bool bv) :: rest, b, hwf, hlk => by
    have hb : alookup k b = some (JValue.bool bv) := hlk k _ (List.mem_cons_self _ _)
    have hwf2 : wfEntries rest = true := by
      simpa [wfEntries, wfVal, Bool.and_eq_true] using hwf
    simp only [deep_merge]
    rw [aset_eq_of_alookup k _ b hb]
    exact deep_merge_restore rest b hwf2
      (fun k2 v2 h2 => hlk k2 v2 (List.mem_cons_of_mem _ h2))
  | (k, JValue.null) :: rest, b, hwf, hlk => by
    have hb : alookup k b = some JValue.null := hlk k _ (List.mem_cons_self _ _)
    have hwf2 : wfEntries rest = true := by
      simpa [wfEntries, wfVal, Bool.and_eq_true] using hwf
    simp only [deep_merge]
    rw [aset_eq_of_alookup k _ b hb]
    exact deep_merge_restore rest b hwf2
      (fun k2 v2 h2 => hlk k2 v2 (List.mem_cons_of_mem _ h2))
  | (k, JValue.list lv) :: rest, b, hwf, hlk => by
    have hb : alookup k b = some (JValue.list lv) := hlk k _ (List.mem_cons_self _ _)
    have hwf2 : wfEntries rest = true :=
      (by simpa [wfEntries, wfVal, Bool.and_eq_true] using hwf : wfArr lv = true ∧ wfEntries rest = true).2
    simp only [deep_merge]
    rw [aset_eq_of_alookup k _ b hb]
    exact deep_merge_restore rest b hwf2
      (fun k2 v2 h2 => hlk k2 v2 (List.mem_cons_of_mem _ h2))
termination_by u => sizeOf u
decreasing_by all_goals (simp only [List.cons.sizeOf_spec, Prod.mk.sizeOf_spec, JValue.obj.sizeOf_spec]; omega)

theorem deep_merge_cons_obj_nomatch {k : String} {vo rest b : JObj}
    (h : ∀ bo, alookup k b ≠ some (JValue.obj bo)) :
    deep_merge b ((k, JValue.obj vo) :: rest) = deep_merge (aset k (JValue.obj vo) b) rest := by
  simp only [deep_merge]

theorem deep_merge_cons_nonobj {k : String} {v : JValue} {rest b : JObj}
    (h : ∀ vo, v ≠ JValue.obj vo) :
    deep_merge b ((k, v) :: rest) = deep_merge (aset k v b) rest := by
  cases v with
  | obj vo => exact absurd rfl (h vo)
  | str s => simp only [deep_merge]
  | num q => simp only [deep_merge]
  | bool b2 => simp only [deep_merge]
  | null => simp only [deep_merge]
  | list l => simp only [deep_merge]

theorem idem_cons_nonobj_case {k : String} {v : JValue} {rest b : JObj}
    (hv : ∀ vo, v ≠ JValue.obj vo)
    (hnotk : k ∉ rest.map Prod.fst)
    (hIH : ∀ b2 : JObj, deep_merge (deep_merge b2 rest) rest = deep_merge b2 rest) :
    deep_merge (deep_merge b ((k, v) :: rest)) ((k, v) :: rest)
      = deep_merge b ((k, v) :: rest) := by
  have hstep : deep_merge b ((k, v) :: rest) = deep_merge (aset k v b) rest :=
    deep_merge_cons_nonobj hv
  have hM : alookup k (deep_merge (aset k v b) rest) = some v := by
    rw [alookup_deep_merge_of_not_mem k rest _ hnotk, alookup_aset_self]
  rw [hstep]
  calc deep_merge (deep_merge (aset k v b) rest) ((k, v) :: rest)
      = deep_merge (aset k v (deep_merge (aset k v b) rest)) rest := deep_merge_cons_nonobj hv
    _ = deep_merge (deep_merge (aset k v b) rest) rest := by rw [aset_eq_of_alookup k _ _ hM]
    _ = deep_merge (aset k v b) rest := hIH _

theorem idem_cons_obj_nomatch_case {k : String} {vo rest b : JObj}
    (hnotk : k ∉ rest.map Prod.fst)
    (hself : deep_merge vo vo = vo)
    (hIH : ∀ b2 : JObj, deep_merge (deep_merge b2 rest) rest = deep_merge b2 rest)
    (hnom : ∀ bo, alookup k b ≠ some (JValue.obj bo)) :
    deep_merge (deep_merge b ((k, JValue.obj vo) :: rest)) ((k, JValue.obj vo) :: rest)
      = deep_merge b ((k, JValue.obj vo) :: rest) := by
  have hstep : deep_merge b ((k, JValue.obj vo) :: rest)
      = deep_merge (aset k (JValue.obj vo) b) rest := deep_merge_cons_obj_nomatch hnom
  have hM : alookup k (deep_merge (aset k (JValue.obj vo) b) rest) = some (JValue.obj vo) := by
    rw [alookup_deep_merge_of_not_mem k rest _ hnotk, alookup_aset_self]
  rw [hstep]
  calc deep_merge (deep_merge (aset k (JValue.obj vo) b) rest) ((k, JValue.obj vo) :: rest)
      = deep_merge (aset k (JValue.obj (deep_merge vo vo))
          (deep_merge (aset k (JValue.obj vo) b) rest)) rest := by
        simp only [deep_merge, hM]
    _ = deep_merge (deep_merge (aset k (JValue.obj vo) b) rest) rest := by
        rw [hself, aset_eq_of_alookup k _ _ hM]
    _ = deep_merge (aset k (JValue.obj vo) b) rest := hIH _

theorem deep_merge_idem_aux : ∀ (u : JObj) (b : JObj),
    wfEntries u = true → nodupKeys (u.map Prod.fst) = true →
    deep_merge (deep_merge b u) u = deep_merge b u
  | [], b, _, _ => by simp [deep_merge]
  | (k, v) :: rest, b, hwf, hnd => by
    have hwf2 : wfVal v = true ∧ wfEntries rest = true := by
      simpa [wfEntries, Bool.and_eq_true] using hwf
    have hnd2 : k ∉ rest.map Prod.fst ∧ nodupKeys (rest.map Prod.fst) = true := by
      rw [List.map_cons] at hnd
      exact nodupKeys_cons.mp hnd
    have hIH : ∀ b2 : JObj, deep_merge (deep_merge b2 rest) rest = deep_merge b2 rest :=
      fun b2 => deep_merge_idem_aux rest b2 hwf2.2 hnd2.2
    cases v with
    | obj vo =>
      have hvo : nodupKeys (vo.map Prod.fst) = true ∧ wfEntries vo = true := by
        simpa [wfVal, Bool.and_eq_true] using hwf2.1
      have hself : deep_merge vo vo = vo :=
        deep_merge_restore vo vo hvo.2 (fun k2 v2 h2 => alookup_of_mem_nodup hvo.1 h2)
      by_cases hm : ∃ bo, alookup k b = some (JValue.obj bo)
      · obtain ⟨bo, hkb⟩ := hm
        have hinner : deep_merge (deep_merge bo vo) vo = deep_merge bo vo :=
          deep_merge_idem_aux vo bo hvo.2 hvo.1
        have hstep : deep_merge b ((k, JValue.obj vo) :: rest)
            = deep_merge (aset k (JValue.obj (deep_merge bo vo)) b) rest := by
          simp only [deep_merge, hkb]
        have hM : alookup k (deep_merge (aset k (JValue.obj (deep_merge bo vo)) b) rest)
            = some (JValue.obj (deep_merge bo vo)) := by
          rw [alookup_deep_merge_of_not_mem k rest _ hnd2.1, alookup_aset_self]
        rw [hstep]
        calc deep_merge (deep_merge (aset k (JValue.obj (deep_merge bo vo)) b) rest)
               ((k, JValue.obj vo) :: rest)
            = deep_merge (aset k (JValue.obj (deep_merge (deep_merge bo vo) vo))
                (deep_merge (aset k (JValue.obj (deep_merge bo vo)) b) rest)) rest := by
              simp only [deep_merge, hM]
          _ = deep_merge (deep_merge (aset k (JValue.obj (deep_merge bo vo)) b) rest) rest := by
              rw [hinner, aset_eq_of_alookup k _ _ hM]
          _ = deep_merge (aset k (JValue.obj (deep_merge bo vo)) b) rest := hIH _
      · push_neg at hm
        exact idem_cons_obj_nomatch_case hnd2.1 hself hIH hm
    | str s => exact idem_cons_nonobj_case (fun _ h2 => JValue.noConfusion h2) hnd2.1 hIH
    | num q => exact idem_cons_nonobj_case (fun _ h2 => JValue.noConfusion h2) hnd2.1 hIH
    | bool b2 => exact idem_cons_nonobj_case (fun _ h2 => JValue.noConfusion h2) hnd2.1 hIH
    | null => exact idem_cons_nonobj_case (fun _ h2 => JValue.noConfusion h2) hnd2.1 hIH
    | list l => exact idem_cons_nonobj_case (fun _ h2 => JValue.noConfusion h2) hnd2.1 hIH
termination_by u => sizeOf u
decreasing_by all_goals (subst_vars; simp only [List.cons.sizeOf_spec, Prod.mk.sizeOf_spec, JValue.obj.sizeOf_spec]; omega)

/-- C9: Applying the same Resolution twice to an agent's design data yields
the same design data as applying it once: for every base map and every
patch map (any maps with the unique-key structure of Python dicts),
deep-merging the patch into the result of deep-merging that same patch
changes nothing further — `_deep_merge` application is idempotent. -/
theorem deep_merge_idempotent (base patch : JObj) (hwf : wfObj patch = true) :
    deep_merge (deep_merge base patch) patch = deep_merge base patch := by
  have h := (Bool.and_eq_true _ _).mp hwf
  exact deep_merge_idem_aux patch base h.2 h.1

/-- Witness for C9 at a concrete nested base and patch. -/
theorem deep_merge_idempotent_witness :
    wfObj [("a", JValue.obj [("x", JValue.num 2), ("y", JValue.num 3)]),
           ("w", JValue.list [JValue.num 1])] = true ∧
    deep_merge (deep_merge [("a", JValue.obj [("x", JValue.num 1)]), ("z", JValue.num 5)]
        [("a", JValue.obj [("x", JValue.num 2), ("y", JValue.num 3)]),
         ("w", JValue.list [JValue.num 1])])
      [("a", JValue.obj [("x", JValue.num 2), ("y", JValue.num 3)]),
       ("w", JValue.list [JValue.num 1])]
    = deep_merge [("a", JValue.obj [("x", JValue.num 1)]), ("z", JValue.num 5)]
        [("a", JValue.obj [("x", JValue.num 2), ("y", JValue.num 3)]),
         ("w", JValue.list [JValue.num 1])] :=
  ⟨by simp [wfObj, nodupKeys, wfEntries, wfVal, wfArr],
   deep_merge_idempotent _ _ (by simp [wfObj, nodupKeys, wfEntries, wfVal, wfArr])⟩

/-! ## Scheduler lemmas -/

theorem fst_inj_of_nodup {α : Type _} :
    ∀ {l : List (String × α)} {a b : String × α},
      (l.map Prod.fst).Nodup → a ∈ l → b ∈ l → a.1 = b.1 → a = b := by
  intro l
  induction l with
  | nil => intro a b _ ha; simp at ha
  | cons hd tl ih =>
    intro a b hnd ha hb heq
    rw [List.map_cons, List.nodup_cons] at hnd
    rcases List.mem_cons.mp ha with ha1 | ha1 <;> rcases List.mem_cons.mp hb with hb1 | hb1
    · rw [ha1, hb1]
    · exfalso
      apply hnd.1
      have h2 : hd.1 = b.1 := by rw [← ha1]; exact heq
      rw [h2]
      exact List.mem_map_of_mem Prod.fst hb1
    · exfalso
      apply hnd.1
      have h2 : hd.1 = a.1 := by rw [← hb1]; exact heq.symm
      rw [h2]
      exact List.mem_map_of_mem Prod.fst ha1
    · exact ih hnd.2 ha1 hb1 heq

theorem length_filter_lt_of_exists {α : Type _} {q : α → Bool} :
    ∀ {l : List α} {x : α}, x ∈ l → q x = false → (l.filter q).length < l.length := by
  intro l
  induction l with
  | nil => intro x hx; simp at hx
  | cons hd tl ih =>
    intro x hx hqx
    rcases List.mem_cons.mp hx with h | h
    · subst h
      rw [List.filter_cons, hqx]
      simp only [Bool.false_eq_true, if_false, List.length_cons]
      exact Nat.lt_succ_of_le (List.length_filter_le q tl)
    · rw [List.filter_cons]
      by_cases hq : q hd
      · simp only [hq, if_true, List.length_cons]
        exact Nat.succ_lt_succ (ih h hqx)
      · simp only [hq, Bool.false_eq_true, if_false, List.length_cons]
        exact Nat.lt_succ_of_lt (ih h hqx)

theorem filter_append_perm_local {α : Type _} (q : α → Bool) :
    ∀ l : List α, List.Perm (l.filter q ++ l.filter (fun a => !(q a))) l := by
  intro l
  induction l with
  | nil => simp
  | cons hd tl ih =>
    by_cases hq : q hd
    · simp only [List.filter_cons, hq, if_true, Bool.not_true, Bool.false_eq_true, if_false,
        List.cons_append]
      exact List.Perm.cons hd ih
    · have hq2 : q hd = false := Bool.not_eq_true _ |>.mp hq
      simp only [List.filter_cons, hq2, Bool.false_eq_true, if_false, Bool.not_false, if_true]
      exact List.Perm.trans List.perm_middle (List.Perm.cons hd ih)

theorem contains_eq_true_iff {l : List String} {x : String} :
    l.contains x = true ↔ x ∈ l := List.elem_iff

theorem filter_not_wave_eq (p : String × List String → Bool) (l : AgentReg)
    (hnd : (l.map Prod.fst).Nodup) :
    l.filter (fun a => !(((l.filter p).map Prod.fst).contains a.1))
      = l.filter (fun a => !(p a)) := by
  apply List.filter_congr
  intro a ha
  have hiff : ((l.filter p).map Prod.fst).contains a.1 = p a := by
    cases hp : p a
    · rw [Bool.eq_false_iff]
      intro hc
      obtain ⟨b, hb, hba⟩ := List.exists_of_mem_map (contains_eq_true_iff.mp hc)
      obtain ⟨hbrem, hpb⟩ := List.mem_filter.mp hb
      have hab : a = b := fst_inj_of_nodup hnd ha hbrem hba.symm
      rw [hab] at hp
      rw [hp] at hpb
      exact Bool.noConfusion hpb
    · exact contains_eq_true_iff.mpr
        (List.mem_map_of_mem Prod.fst (List.mem_filter.mpr ⟨ha, hp⟩))
  rw [hiff]

theorem filter_ne_head_eq {hd : String × List String} {tl : AgentReg}
    (hnd : hd.1 ∉ tl.map Prod.fst) :
    tl.filter (fun a => !([hd.1].contains a.1)) = tl := by
  rw [List.filter_eq_self]
  intro a ha
  simp only [List.contains_cons, List.contains_nil, Bool.or_false, Bool.not_eq_true',
    beq_eq_false_iff_ne, ne_eq]
  intro h
  exact hnd (h ▸ List.mem_map_of_mem Prod.fst ha)


theorem nodup_filter_map_fst (q : String × List String → Bool) (l : AgentReg)
    (hnd : (l.map Prod.fst).Nodup) : ((l.filter q).map Prod.fst).Nodup := by
  have hs : ((l.filter q).map Prod.fst).Sublist (l.map Prod.fst) :=
    (List.filter_sublist l).map Prod.fst
  exact hnd.sublist hs

theorem scheduleAux_step_forced {f : Nat} {h : String × List String} {t : AgentReg}
    {e : List String} (hf : (readyAgents (h :: t) e).isEmpty = true) :
    scheduleAux (f + 1) (h :: t) e
      = ([h.1], true) ::
          scheduleAux f ((h :: t).filter (fun a => !([h.1].contains a.1))) (e ++ [h.1]) := by
  simp only [scheduleAux, hf, if_true]

theorem scheduleAux_step_ready {f : Nat} {h : String × List String} {t : AgentReg}
    {e : List String} (hf : (readyAgents (h :: t) e).isEmpty = false) :
    scheduleAux (f + 1) (h :: t) e
      = ((readyAgents (h :: t) e).map Prod.fst, false) ::
          scheduleAux f
            ((h :: t).filter
              (fun a => !(((readyAgents (h :: t) e).map Prod.fst).contains a.1)))
            (e ++ (readyAgents (h :: t) e).map Prod.fst) := by
  simp only [scheduleAux, hf, Bool.false_eq_true, if_false]

theorem head_filter_forced (h : String × List String) (t : AgentReg)
    (hnd : h.1 ∉ t.map Prod.fst) :
    (h :: t).filter (fun a => !([h.1].contains a.1)) = t := by
  rw [List.filter_cons]
  have hc : (!([h.1].contains h.1)) = false := by simp
  rw [hc]
  simp only [Bool.false_eq_true, if_false]
  rw [List.filter_eq_self]
  intro a ha
  simp only [List.contains_cons, List.contains_nil, Bool.or_false, Bool.not_eq_true',
    beq_eq_false_iff_ne, ne_eq]
  intro h2
  exact hnd (h2 ▸ List.mem_map_of_mem Prod.fst ha)

theorem scheduleAux_perm : ∀ (fuel : Nat) (rem : AgentReg) (ex : List String),
    rem.length ≤ fuel → (rem.map Prod.fst).Nodup →
    List.Perm (((scheduleAux fuel rem ex).map Prod.fst).flatten) (rem.map Prod.fst) := by
  intro fuel
  induction fuel with
  | zero =>
    intro rem ex hlen _
    have h0 : rem = [] := List.eq_nil_of_length_eq_zero (Nat.le_zero.mp hlen)
    subst h0
    simp [scheduleAux]
  | succ fuel ih =>
    intro rem ex hlen hnd
    cases rem with
    | nil => simp [scheduleAux]
    | cons hd tl =>
      have hndc := hnd
      rw [List.map_cons, List.nodup_cons] at hndc
      cases hforced : (readyAgents (hd :: tl) ex).isEmpty with
      | true =>
        rw [scheduleAux_step_forced hforced, head_filter_forced hd tl hndc.1]
        rw [List.map_cons, List.flatten_cons]
        have hsub := ih tl (ex ++ [hd.1]) (Nat.le_of_succ_le_succ hlen) hndc.2
        simpa using List.Perm.cons hd.1 hsub
      | false =>
        rw [scheduleAux_step_ready hforced]
        rw [List.map_cons, List.flatten_cons]
        have hready : readyAgents (hd :: tl) ex
            = (hd :: tl).filter (fun a => a.2.all (fun d => ex.contains d)) := rfl
        have hF := filter_not_wave_eq (fun a => a.2.all (fun d => ex.contains d)) (hd :: tl) hnd
        have hne : readyAgents (hd :: tl) ex ≠ [] := by
          intro h0
          rw [h0] at hforced
          exact Bool.noConfusion hforced
        obtain ⟨m, hm⟩ := List.exists_mem_of_ne_nil _ hne
        have hm2 : m ∈ (hd :: tl).filter (fun a => a.2.all (fun d => ex.contains d)) :=
          hready ▸ hm
        have hmrem : m ∈ hd :: tl := (List.mem_filter.mp hm2).1
        have hmp : m.2.all (fun d => ex.contains d) = true := (List.mem_filter.mp hm2).2
        have hlt : ((hd :: tl).filter
            (fun a => !(a.2.all (fun d => ex.contains d)))).length < (hd :: tl).length :=
          length_filter_lt_of_exists hmrem (by rw [hmp]; rfl)
        have hsub := ih ((hd :: tl).filter
            (fun a => !(((readyAgents (hd :: tl) ex).map Prod.fst).contains a.1)))
          (ex ++ (readyAgents (hd :: tl) ex).map Prod.fst)
          (by
            rw [hready, hF]
            exact Nat.lt_succ_iff.mp (Nat.lt_of_lt_of_le hlt hlen))
          (nodup_filter_map_fst _ _ hnd)
        refine List.Perm.trans (List.Perm.append_left _ hsub) ?_
        rw [hready, hF, ← List.map_append]
        exact (filter_append_perm_local _ (hd :: tl)).map Prod.fst

theorem scheduleAux_waves : ∀ (fuel : Nat) (rem : AgentReg) (ex : List String),
    ∀ wb ∈ scheduleAux fuel rem ex, wb.1 ≠ [] ∧ (wb.2 = true → wb.1.length = 1) := by
  intro fuel
  induction fuel with
  | zero => intro rem ex wb hwb; simp [scheduleAux] at hwb
  | succ fuel ih =>
    intro rem ex wb hwb
    cases rem with
    | nil => simp [scheduleAux] at hwb
    | cons hd tl =>
      cases hforced : (readyAgents (hd :: tl) ex).isEmpty with
      | true =>
        rw [scheduleAux_step_forced hforced] at hwb
        rcases List.mem_cons.mp hwb with h | h
        · subst h
          exact ⟨by simp, fun _ => rfl⟩
        · exact ih _ _ wb h
      | false =>
        rw [scheduleAux_step_ready hforced] at hwb
        rcases List.mem_cons.mp hwb with h | h
        · subst h
          refine ⟨?_, fun hf => Bool.noConfusion hf⟩
          intro h0
          have : readyAgents (hd :: tl) ex = [] := List.map_eq_nil_iff.mp h0
          rw [this] at hforced
          exact Bool.noConfusion hforced
        · exact ih _ _ wb h

/-- C7: For every registered agent set (distinct names, as Python dict keys
are), including cyclic, self-referential, or unregistered dependencies,
`get_execution_order` terminates — the fuel `agents.length` spent by the
embedded while-loop is proven sufficient here — and returns waves that
together contain every registered agent exactly once; every wave is
nonempty, the recorded warnings are exactly the forced waves, and each
forced wave holds a single blocked agent forced into its own wave. -/
theorem get_execution_order_total (agents : AgentReg)
    (hnd : (agents.map Prod.fst).Nodup) :
    List.Perm (get_execution_order agents).flatten (agents.map Prod.fst)
    ∧ (∀ w ∈ get_execution_order agents, w ≠ [])
    ∧ execution_order_warnings agents
        = ((scheduleAux agents.length agents []).filter Prod.snd).map Prod.fst
    ∧ (∀ w ∈ execution_order_warnings agents, w.length = 1) := by
  refine ⟨?_, ?_, rfl, ?_⟩
  · exact scheduleAux_perm agents.length agents [] (Nat.le_refl _) hnd
  · intro w hw
    simp only [get_execution_order] at hw
    obtain ⟨wb, hwb, hww⟩ := List.exists_of_mem_map hw
    exact hww ▸ (scheduleAux_waves _ _ _ wb hwb).1
  · intro w hw
    simp only [execution_order_warnings] at hw
    obtain ⟨wb, hwb, hww⟩ := List.exists_of_mem_map hw
    obtain ⟨hwbmem, hsnd⟩ := List.mem_filter.mp hwb
    exact hww ▸ (scheduleAux_waves _ _ _ wb hwbmem).2 hsnd

/-- Witness for C7 on the spec's cyclic example: A depends on B and B on A.
Scheduling terminates, covers both agents, and records one warning for the
forced singleton wave. -/
theorem get_execution_order_total_witness :
    List.Perm (get_execution_order [("A", ["B"]), ("B", ["A"])]).flatten ["A", "B"]
    ∧ (∀ w ∈ get_execution_order [("A", ["B"]), ("B", ["A"])], w ≠ [])
    ∧ get_execution_order [("A", ["B"]), ("B", ["A"])] = [["A"], ["B"]]
    ∧ execution_order_warnings [("A", ["B"]), ("B", ["A"])] = [["A"]] := by
  have h := get_execution_order_total [("A", ["B"]), ("B", ["A"])] (by decide)
  exact ⟨h.1, h.2.1, rfl, rfl⟩

theorem exists_min_agent (agents : AgentReg) (hacyc : AcyclicDeps agents) :
    ∀ (rem : AgentReg), rem ≠ [] → (∀ a ∈ rem, a ∈ agents) →
    ∃ m ∈ rem, ∀ d ∈ m.2, d ∉ rem.map Prod.fst := by
  intro rem hne hsub
  haveI hfin : Finite ↥{x : String | x ∈ agents.map Prod.fst} :=
    ((agents.map Prod.fst).finite_toSet).to_subtype
  let R : ↥{x : String | x ∈ agents.map Prod.fst} →
      ↥{x : String | x ∈ agents.map Prod.fst} → Prop :=
    fun u v => Relation.TransGen (DependsOn agents) v.1 u.1
  haveI : IsTrans _ R := ⟨fun _ _ _ hab hbc => Relation.TransGen.trans hbc hab⟩
  haveI : IsIrrefl _ R := ⟨fun a h => hacyc a.1 h⟩
  have hwf : WellFounded R := Finite.wellFounded_of_trans_of_irrefl R
  have hTne : {u : ↥{x : String | x ∈ agents.map Prod.fst} |
      u.1 ∈ rem.map Prod.fst}.Nonempty := by
    obtain ⟨a, ha⟩ := List.exists_mem_of_ne_nil rem hne
    have hareg : a.1 ∈ agents.map Prod.fst := List.mem_map_of_mem Prod.fst (hsub a ha)
    exact ⟨⟨a.1, hareg⟩, List.mem_map_of_mem Prod.fst ha⟩
  obtain ⟨mu, hmuT, hmin⟩ := hwf.has_min _ hTne
  obtain ⟨m, hmrem, hmname⟩ := List.exists_of_mem_map hmuT
  refine ⟨m, hmrem, ?_⟩
  intro d hd hdrem
  have hdreg : d ∈ agents.map Prod.fst := by
    obtain ⟨b, hbrem, hbname⟩ := List.exists_of_mem_map hdrem
    exact hbname ▸ List.mem_map_of_mem Prod.fst (hsub b hbrem)
  have hdep : DependsOn agents m.1 d := ⟨m.2, hsub m hmrem, hd⟩
  exact hmin ⟨d, hdreg⟩ hdrem
    (Relation.TransGen.single (show DependsOn agents mu.1 d from hmname ▸ hdep))

theorem scheduleAux_dep_order (agents : AgentReg)
    (hacyc : AcyclicDeps agents)
    (hreg : ∀ a ∈ agents, ∀ d ∈ a.2, d ∈ agents.map Prod.fst) :
    ∀ (fuel : Nat) (rem : AgentReg) (ex : List String),
      rem.length ≤ fuel →
      (rem.map Prod.fst).Nodup →
      (∀ a ∈ rem, a ∈ agents) →
      (∀ x, x ∈ agents.map Prod.fst → x ∉ rem.map Prod.fst → x ∈ ex) →
      (∀ x ∈ ex, x ∉ rem.map Prod.fst) →
      ∀ a ∈ rem, ∀ d ∈ a.2, d ∈ rem.map Prod.fst →
        waveIndex ((scheduleAux fuel rem ex).map Prod.fst) d
          < waveIndex ((scheduleAux fuel rem ex).map Prod.fst) a.1 := by
  intro fuel
  induction fuel with
  | zero =>
    intro rem ex hlen _ _ _ _ a ha _ _ _
    have h0 : rem = [] := List.eq_nil_of_length_eq_zero (Nat.le_zero.mp hlen)
    subst h0
    simp at ha
  | succ fuel ih =>
    intro rem ex hlen hnd hsub hinv2 hinv3 a ha d hdmem hdrem
    cases rem with
    | nil => simp at ha
    | cons hd tl =>
      obtain ⟨m, hmrem, hmmin⟩ :=
        exists_min_agent agents hacyc (hd :: tl) (List.cons_ne_nil hd tl) hsub
      have hmp : m.2.all (fun d => ex.contains d) = true := by
        refine List.all_eq_true.mpr ?_
        intro d2 hd2
        refine contains_eq_true_iff.mpr ?_
        refine hinv2 d2 (hreg m (hsub m hmrem) d2 hd2) (hmmin d2 hd2)
      have hmready : m ∈ readyAgents (hd :: tl) ex :=
        List.mem_filter.mpr ⟨hmrem, hmp⟩
      have hforced : (readyAgents (hd :: tl) ex).isEmpty = false := by
        cases hf : (readyAgents (hd :: tl) ex).isEmpty with
        | false => rfl
        | true =>
          rw [List.isEmpty_iff.mp hf] at hmready
          simp at hmready
      rw [scheduleAux_step_ready hforced]
      have hready : readyAgents (hd :: tl) ex
          = (hd :: tl).filter (fun a => a.2.all (fun d => ex.contains d)) := rfl
      have hF := filter_not_wave_eq (fun a => a.2.all (fun d => ex.contains d)) (hd :: tl) hnd
      rw [hready, hF]
      -- abbreviations after rewriting
      have hlt : ((hd :: tl).filter
          (fun a => !(a.2.all (fun d => ex.contains d)))).length < (hd :: tl).length :=
        length_filter_lt_of_exists hmrem (by rw [hmp]; rfl)
      have hwavemem : ∀ x, x ∈ ((hd :: tl).filter
            (fun a => a.2.all (fun d => ex.contains d))).map Prod.fst
          ↔ (∃ b ∈ hd :: tl, b.1 = x ∧ b.2.all (fun d => ex.contains d) = true) := by
        intro x
        constructor
        · intro hx
          obtain ⟨b, hb, hbx⟩ := List.exists_of_mem_map hx
          obtain ⟨hbrem, hbp⟩ := List.mem_filter.mp hb
          exact ⟨b, hbrem, hbx, hbp⟩
        · intro ⟨b, hbrem, hbx, hbp⟩
          exact hbx ▸ List.mem_map_of_mem Prod.fst (List.mem_filter.mpr ⟨hbrem, hbp⟩)
      have hdisj : ∀ x, x ∈ ((hd :: tl).filter
            (fun a => a.2.all (fun d => ex.contains d))).map Prod.fst →
          x ∉ ((hd :: tl).filter
            (fun a => !(a.2.all (fun d => ex.contains d)))).map Prod.fst := by
        intro x hx hx2
        obtain ⟨b, hbrem, hbx, hbp⟩ := (hwavemem x).mp hx
        obtain ⟨c, hc, hcx⟩ := List.exists_of_mem_map hx2
        obtain ⟨hcrem, hcp⟩ := List.mem_filter.mp hc
        have hbc : b = c := fst_inj_of_nodup hnd hbrem hcrem (by rw [hbx, hcx])
        have hcp2 : (!(c.2.all (fun d => ex.contains d))) = true := hcp
        rw [hbc] at hbp
        rw [hbp] at hcp2
        simp at hcp2
      -- establish the invariants for the recursive call
      have hlen2 : ((hd :: tl).filter
          (fun a => !(a.2.all (fun d => ex.contains d)))).length ≤ fuel :=
        Nat.lt_succ_iff.mp (Nat.lt_of_lt_of_le hlt hlen)
      have hnd2 := nodup_filter_map_fst
        (fun a => !(a.2.all (fun d => ex.contains d))) (hd :: tl) hnd
      have hsub2 : ∀ b ∈ (hd :: tl).filter
          (fun a => !(a.2.all (fun d => ex.contains d))), b ∈ agents :=
        fun b hb => hsub b (List.mem_filter.mp hb).1
      have hinv2b : ∀ x, x ∈ agents.map Prod.fst →
          x ∉ ((hd :: tl).filter
            (fun a => !(a.2.all (fun d => ex.contains d)))).map Prod.fst →
          x ∈ ex ++ ((hd :: tl).filter
            (fun a => a.2.all (fun d => ex.contains d))).map Prod.fst := by
        intro x hxreg hxnot
        rw [List.mem_append]
        by_cases hxrem : x ∈ (hd :: tl).map Prod.fst
        · right
          obtain ⟨b, hbrem, hbx⟩ := List.exists_of_mem_map hxrem
          cases hbp : b.2.all (fun d => ex.contains d) with
          | true => exact (hwavemem x).mpr ⟨b, hbrem, hbx, hbp⟩
          | false =>
            exfalso
            apply hxnot
            refine hbx ▸ List.mem_map_of_mem Prod.fst (List.mem_filter.mpr ⟨hbrem, ?_⟩)
            rw [hbp]
            rfl
        · exact Or.inl (hinv2 x hxreg hxrem)
      have hinv3b : ∀ x ∈ ex ++ ((hd :: tl).filter
            (fun a => a.2.all (fun d => ex.contains d))).map Prod.fst,
          x ∉ ((hd :: tl).filter
            (fun a => !(a.2.all (fun d => ex.contains d)))).map Prod.fst := by
        intro x hx
        rcases List.mem_append.mp hx with hx | hx
        · intro hx2
          obtain ⟨c, hc, hcx⟩ := List.exists_of_mem_map hx2
          exact hinv3 x hx (hcx ▸ List.mem_map_of_mem Prod.fst (List.mem_filter.mp hc).1)
        · exact hdisj x hx
      -- the goal, stepping through the head wave
      by_cases hpa : a.2.all (fun d => ex.contains d) = true
      · -- a is in the ready wave, so all its dependencies were already executed,
        -- contradicting d ∈ remaining
        exfalso
        have hdex : d ∈ ex := contains_eq_true_iff.mp (List.all_eq_true.mp hpa d hdmem)
        exact hinv3 d hdex hdrem
      · have hpa2 : a.2.all (fun d => ex.contains d) = false := Bool.not_eq_true _ ▸ hpa
        have ha2 : a ∈ (hd :: tl).filter
            (fun a => !(a.2.all (fun d => ex.contains d))) :=
          List.mem_filter.mpr ⟨ha, by rw [hpa2]; rfl⟩
        have hanotwave : a.1 ∉ ((hd :: tl).filter
            (fun a => a.2.all (fun d => ex.contains d))).map Prod.fst := by
          intro hx
          exact hdisj a.1 hx (List.mem_map_of_mem Prod.fst ha2)
        have hcontainsa : (((hd :: tl).filter
            (fun a => a.2.all (fun d => ex.contains d))).map Prod.fst).contains a.1 = false := by
          rw [Bool.eq_false_iff]
          intro hc
          exact hanotwave (contains_eq_true_iff.mp hc)
        rw [List.map_cons]
        by_cases hdw : d ∈ ((hd :: tl).filter
            (fun a => a.2.all (fun d => ex.contains d))).map Prod.fst
        · -- d is scheduled in this wave (index 0), a strictly later
          have hcd : (((hd :: tl).filter
              (fun a => a.2.all (fun d => ex.contains d))).map Prod.fst).contains d = true :=
            contains_eq_true_iff.mpr hdw
          simp only [waveIndex, List.findIdx_cons, hcd, hcontainsa, cond_true, cond_false]
          exact Nat.succ_pos _
        · -- d stays in the remainder; use the induction hypothesis one wave deeper
          have hddrem2 : d ∈ ((hd :: tl).filter
              (fun a => !(a.2.all (fun d => ex.contains d)))).map Prod.fst := by
            obtain ⟨b, hbrem, hbx⟩ := List.exists_of_mem_map hdrem
            cases hbp : b.2.all (fun d => ex.contains d) with
            | true => exact absurd ((hwavemem d).mpr ⟨b, hbrem, hbx, hbp⟩) hdw
            | false =>
              refine hbx ▸ List.mem_map_of_mem Prod.fst (List.mem_filter.mpr ⟨hbrem, ?_⟩)
              rw [hbp]
              rfl
          have hcd : (((hd :: tl).filter
              (fun a => a.2.all (fun d => ex.contains d))).map Prod.fst).contains d = false := by
            rw [Bool.eq_false_iff]
            intro hc
            exact hdw (contains_eq_true_iff.mp hc)
          have hsub := ih ((hd :: tl).filter (fun a => !(a.2.all (fun d => ex.contains d))))
            (ex ++ ((hd :: tl).filter (fun a => a.2.all (fun d => ex.contains d))).map Prod.fst)
            hlen2 hnd2 hsub2 hinv2b hinv3b a ha2 d hdmem hddrem2
          simp only [waveIndex, List.findIdx_cons, hcd, hcontainsa, cond_false]
          exact Nat.succ_lt_succ hsub

/-- C6: For every registered agent set with distinct names whose declared
dependency graph is acyclic and whose dependencies all name registered
agents, `get_execution_order` assigns every agent a wave index strictly
greater than the wave index of each of its dependencies. -/
theorem get_execution_order_respects_deps (agents : AgentReg)
    (hnd : (agents.map Prod.fst).Nodup)
    (hreg : ∀ a ∈ agents, ∀ d ∈ a.2, d ∈ agents.map Prod.fst)
    (hacyc : AcyclicDeps agents) :
    ∀ a ∈ agents, ∀ d ∈ a.2,
      waveIndex (get_execution_order agents) d
        < waveIndex (get_execution_order agents) a.1 := by
  intro a ha d hdmem
  have hdrem : d ∈ agents.map Prod.fst := hreg a ha d hdmem
  have h := scheduleAux_dep_order agents hacyc hreg agents.length agents []
    (Nat.le_refl _) hnd (fun _ h => h)
    (fun x hx hnx => absurd hx hnx)
    (fun x hx => absurd hx (List.not_mem_nil x))
    a ha d hdmem hdrem
  simpa [get_execution_order] using h

theorem acyclic_of_rank (agents : AgentReg) (f : String → Nat)
    (h : ∀ x y, DependsOn agents x y → f y < f x) : AcyclicDeps agents := by
  intro x hx
  have hlt : ∀ u v, Relation.TransGen (DependsOn agents) u v → f v < f u := by
    intro u v huv
    induction huv with
    | single h1 => exact h _ _ h1
    | tail _ h2 ih => exact Nat.lt_trans (h _ _ h2) ih
  exact absurd (hlt x x hx) (Nat.lt_irrefl _)

/-- Witness for C6 on the chain architectural ← structural ← mep. -/
theorem get_execution_order_respects_deps_witness :
    waveIndex (get_execution_order
        [("architectural", ([] : List String)),
         ("structural", ["architectural"]),
         ("mep", ["architectural", "structural"])]) "architectural"
      < waveIndex (get_execution_order
        [("architectural", ([] : List String)),
         ("structural", ["architectural"]),
         ("mep", ["architectural", "structural"])]) "structural" := by
  have hacyc : AcyclicDeps
      [("architectural", ([] : List String)),
       ("structural", ["architectural"]),
       ("mep", ["architectural", "structural"])] := by
    refine acyclic_of_rank _
      (fun x => if x = "architectural" then 0 else if x = "structural" then 1 else 2) ?_
    intro x y hdep
    obtain ⟨ds, hin, hy⟩ := hdep
    simp only [List.mem_cons, List.not_mem_nil, or_false] at hin
    rcases hin with h | h | h
    · rw [Prod.mk.injEq] at h
      obtain ⟨rfl, rfl⟩ := h
      simp at hy
    · rw [Prod.mk.injEq] at h
      obtain ⟨rfl, rfl⟩ := h
      simp only [List.mem_cons, List.not_mem_nil, or_false] at hy
      subst hy
      decide
    · rw [Prod.mk.injEq] at h
      obtain ⟨rfl, rfl⟩ := h
      simp only [List.mem_cons, List.not_mem_nil, or_false] at hy
      rcases hy with rfl | rfl <;> decide
  exact get_execution_order_respects_deps _ (by decide) (by decide) hacyc
    ("structural", ["architectural"]) (by simp) "architectural" (by simp)

/-! ## Resolver lemmas -/

theorem insertByWeight_perm (c : Conflict) :
    ∀ l : List Conflict, List.Perm (insertByWeight c l) (c :: l) := by
  intro l
  induction l with
  | nil => simp [insertByWeight]
  | cons d ds ih =>
    rw [insertByWeight]
    by_cases h : PRIORITY_WEIGHTS c.priority < PRIORITY_WEIGHTS d.priority
    · rw [if_pos h]
      exact List.Perm.trans (List.Perm.cons d ih) (List.Perm.swap c d ds)
    · rw [if_neg h]

theorem sortConflicts_perm :
    ∀ l : List Conflict, List.Perm (sortConflicts l) l := by
  intro l
  induction l with
  | nil => simp [sortConflicts]
  | cons c cs ih =>
    rw [sortConflicts]
    exact List.Perm.trans (insertByWeight_perm c (sortConflicts cs)) (List.Perm.cons c ih)

theorem insertByWeight_sorted (c : Conflict) :
    ∀ l : List Conflict,
      l.Pairwise (fun a b => PRIORITY_WEIGHTS b.priority ≤ PRIORITY_WEIGHTS a.priority) →
      (insertByWeight c l).Pairwise
        (fun a b => PRIORITY_WEIGHTS b.priority ≤ PRIORITY_WEIGHTS a.priority) := by
  intro l
  induction l with
  | nil => intro _; simp [insertByWeight]
  | cons d ds ih =>
    intro hl
    rw [List.pairwise_cons] at hl
    rw [insertByWeight]
    by_cases h : PRIORITY_WEIGHTS c.priority < PRIORITY_WEIGHTS d.priority
    · rw [if_pos h]
      rw [List.pairwise_cons]
      refine ⟨?_, ih hl.2⟩
      intro b hb
      rcases List.mem_cons.mp ((insertByWeight_perm c ds).mem_iff.mp hb) with hb1 | hb1
      · rw [hb1]
        exact Nat.le_of_lt h
      · exact hl.1 b hb1
    · rw [if_neg h]
      rw [List.pairwise_cons]
      refine ⟨?_, List.pairwise_cons.mpr hl⟩
      intro b hb
      rcases List.mem_cons.mp hb with hb1 | hb1
      · rw [hb1]
        exact Nat.le_of_not_lt h
      · exact Nat.le_trans (hl.1 b hb1) (Nat.le_of_not_lt h)

theorem sortConflicts_sorted :
    ∀ l : List Conflict,
      (sortConflicts l).Pairwise
        (fun a b => PRIORITY_WEIGHTS b.priority ≤ PRIORITY_WEIGHTS a.priority) := by
  intro l
  induction l with
  | nil => simp [sortConflicts]
  | cons c cs ih => exact insertByWeight_sorted c (sortConflicts cs) ih

theorem filter_insertByWeight (p : ConflictPriority) (c : Conflict) :
    ∀ l : List Conflict,
      (insertByWeight c l).filter (fun x => decide (x.priority = p))
        = ((c :: l).filter (fun x => decide (x.priority = p))) := by
  intro l
  induction l with
  | nil => rw [insertByWeight]
  | cons d ds ih =>
    rw [insertByWeight]
    by_cases h : PRIORITY_WEIGHTS c.priority < PRIORITY_WEIGHTS d.priority
    · rw [if_pos h]
      by_cases hd : d.priority = p
      · have hc : ¬(c.priority = p) := by
          intro hcp
          rw [hcp, ← hd] at h
          exact Nat.lt_irrefl _ h
        simp [List.filter_cons, hd, hc, ih]
      · have hdp : (decide (d.priority = p)) = false := by simp [hd]
        simp [List.filter_cons, hdp, ih]
    · rw [if_neg h]

theorem sortConflicts_stable (p : ConflictPriority) :
    ∀ l : List Conflict,
      (sortConflicts l).filter (fun x => decide (x.priority = p))
        = l.filter (fun x => decide (x.priority = p)) := by
  intro l
  induction l with
  | nil => rfl
  | cons c cs ih =>
    rw [sortConflicts, filter_insertByWeight]
    rw [List.filter_cons, List.filter_cons, ih]

/-- C8: `resolve_all` maps the resolver over the stably priority-sorted
conflicts: its output is exactly one `Resolution` per conflict in the order
of `sortConflicts`, which is ordered by descending `PRIORITY_WEIGHTS` and,
for every priority class, preserves the relative input order of its
conflicts. -/
theorem resolve_all_priority_order (R : ConflictResolver) (conflicts : List Conflict) :
    resolve_all R conflicts = (sortConflicts conflicts).map (resolve R)
    ∧ (sortConflicts conflicts).Pairwise
        (fun a b => PRIORITY_WEIGHTS b.priority ≤ PRIORITY_WEIGHTS a.priority)
    ∧ ∀ p : ConflictPriority,
        (sortConflicts conflicts).filter (fun x => decide (x.priority = p))
          = conflicts.filter (fun x => decide (x.priority = p)) :=
  ⟨rfl, sortConflicts_sorted conflicts, fun p => sortConflicts_stable p conflicts⟩

/-- C3: `resolve_all` returns exactly one `Resolution` per input `Conflict`:
the output has the input's length and is the image of `resolve` — which
always produces a `Resolution` — over a permutation of the input. -/
theorem resolve_all_one_per_conflict (R : ConflictResolver) (conflicts : List Conflict) :
    (resolve_all R conflicts).length = conflicts.length
    ∧ List.Perm (sortConflicts conflicts) conflicts
    ∧ resolve_all R conflicts = (sortConflicts conflicts).map (resolve R) := by
  refine ⟨?_, sortConflicts_perm conflicts, rfl⟩
  rw [resolve_all, List.length_map]
  exact (sortConflicts_perm conflicts).length_eq

/-! ## C5: unmatched conflict types -/

/-- C5 counterexample: for the FUNCTIONAL conflict `cFunctional` (matched by
no strategy) and a resolver without an LLM, `resolve` does not return the
DEFAULT accept/0.50 resolution flagged for manual review: it returns the
hierarchy fallback — resolution_type "modify", nonempty changes,
resolved_by "hierarchy_resolution", confidence 0.70. -/
theorem resolve_unmatched_counterexample :
    find_strategy cFunctional = none
    ∧ (resolve resolverNoLLM cFunctional).resolution_type = "modify"
    ∧ (resolve resolverNoLLM cFunctional).resolved_by = "hierarchy_resolution"
    ∧ (resolve resolverNoLLM cFunctional).confidence = 0.70
    ∧ (resolve resolverNoLLM cFunctional).changes ≠ []
    ∧ (resolve resolverNoLLM cFunctional).resolution_type ≠ "accept"
    ∧ (resolve resolverNoLLM cFunctional).confidence ≠ 0.50 := by
  have hconf : (resolve resolverNoLLM cFunctional).confidence = 0.70 := rfl
  refine ⟨rfl, rfl, rfl, hconf, ?_, ?_, ?_⟩
  · intro h
    exact List.noConfusion h
  · intro h
    exact String.noConfusion (show ("modify" : String) = "accept" from h) (by decide)
  · rw [hconf]
    norm_num

/-- C5 (amended): a Conflict whose type matches no strategy in the table is
routed to LLM negotiation, not to the DEFAULT resolution; when no LLM
client is configured the result is the hierarchy-based fallback built from
AGENT_HIERARCHY — resolution_type "modify", the lower-ranked agent adapting,
resolved_by "hierarchy_resolution", confidence 0.70. -/
theorem resolve_unmatched_hierarchy (R : ConflictResolver) (c : Conflict)
    (hllm : R.llm = none) (hs : find_strategy c = none) :
    resolve R c
      = hierarchy_resolution c (AGENT_HIERARCHY c.source_agent) (AGENT_HIERARCHY c.target_agent)
    ∧ (resolve R c).resolution_type = "modify"
    ∧ (resolve R c).resolved_by = "hierarchy_resolution"
    ∧ (resolve R c).confidence = 0.70 := by
  have h1 : resolve R c
      = hierarchy_resolution c (AGENT_HIERARCHY c.source_agent) (AGENT_HIERARCHY c.target_agent) := by
    rw [resolve, hs, negotiate_resolution, hllm]
  exact ⟨h1, by rw [h1]; rfl, by rw [h1]; rfl, by rw [h1]; rfl⟩

/-- Witness for the amended C5 at the concrete FUNCTIONAL conflict. -/
theorem resolve_unmatched_hierarchy_witness :
    resolve resolverNoLLM cFunctional
      = hierarchy_resolution cFunctional (AGENT_HIERARCHY "mep") (AGENT_HIERARCHY "architectural")
    ∧ (resolve resolverNoLLM cFunctional).resolution_type = "modify"
    ∧ (resolve resolverNoLLM cFunctional).resolved_by = "hierarchy_resolution"
    ∧ (resolve resolverNoLLM cFunctional).confidence = 0.70 :=
  resolve_unmatched_hierarchy resolverNoLLM cFunctional rfl rfl

/-! ## C2: convergence on an empty conflict set -/

/-- C2 counterexample: with an empty accumulated conflict set but zero
iterations, `check_convergence` returns false, although the claim requires
true regardless of the iteration count. -/
theorem check_convergence_counterexample :
    check_convergence ⟨[], [], [], CoordinationPhase.INITIALIZATION, 0⟩ 0.95 = false
    ∧ (⟨[], [], [], CoordinationPhase.INITIALIZATION, 0⟩ : CoordState).all_conflicts = [] :=
  ⟨rfl, rfl⟩

/-- C2 (amended): `check_convergence` returns true whenever the accumulated
conflict set is empty AND at least 2 iterations have run; with fewer than 2
iterations it returns false unconditionally (coordinator.py:342-343). -/
theorem check_convergence_empty (s : CoordState) (t : Rat)
    (hit : 2 ≤ s.iteration) (hempty : s.all_conflicts = []) :
    check_convergence s t = true := by
  have hlt : ¬(s.iteration < 2) := Nat.not_lt.mpr hit
  simp [check_convergence, hlt, hempty]

/-- Witness for the amended C2: empty conflict set at iteration 2. -/
theorem check_convergence_empty_witness :
    check_convergence ⟨[], [], [], CoordinationPhase.CONFLICT_RESOLUTION, 2⟩ 0.95 = true :=
  check_convergence_empty ⟨[], [], [], CoordinationPhase.CONFLICT_RESOLUTION, 2⟩ 0.95
    (Nat.le_refl 2) rfl

/-! ## C10: determinism of conflict detection -/

/-- C10: `detect_conflicts` is deterministic — it is a pure function of the
agent outputs map, so two calls on identical outputs maps return identical
ordered conflict lists with identical ids; no hidden state, time, or
randomness enters the result. -/
theorem detect_conflicts_deterministic (o1 o2 : List (String × AgentOutput))
    (h : o1 = o2) : detect_conflicts o1 = detect_conflicts o2 := by
  rw [h]

/-- Witness for C10 on an outputs map that produces a spatial conflict. -/
theorem detect_conflicts_deterministic_witness :
    detect_conflicts sampleOutputs = detect_conflicts sampleOutputs
    ∧ (detect_conflicts sampleOutputs).map (fun c => c.id) = ["spatial_col_c1_s1"] :=
  ⟨detect_conflicts_deterministic sampleOutputs sampleOutputs rfl, rfl⟩

/-! ## C4: which resolutions get applied -/

theorem alookup_apply_changes (a : String) :
    ∀ (cs : List (String × JObj)) (outs : List (String × AgentOutput)),
      alookup a (apply_changes outs cs)
        = (alookup a outs).map (fun o =>
            { o with design_data :=
                ((cs.filter (fun e => e.1 == a)).map Prod.snd).foldl deep_merge o.design_data }) := by
  intro cs
  induction cs with
  | nil =>
    intro outs
    cases h : alookup a outs <;> simp [apply_changes, h]
  | cons hd rest ih =>
    intro outs
    obtain ⟨b, patch⟩ := hd
    have hstep : apply_changes outs ((b, patch) :: rest)
        = apply_changes (match alookup b outs with
            | some o => aset b { o with design_data := deep_merge o.design_data patch } outs
            | none => outs) rest := rfl
    rw [hstep]
    by_cases hba : b = a
    · subst hba
      cases h : alookup b outs with
      | none => rw [ih]; simp [h]
      | some o =>
        rw [ih]
        rw [alookup_aset_self]
        simp [h, List.filter_cons]
    · cases h : alookup b outs with
      | none => rw [ih]; simp [List.filter_cons, hba]
      | some o =>
        rw [ih, alookup_aset_ne _ hba]
        simp [List.filter_cons, hba]

/-- C4 (amended): `apply_resolutions` applies only the Resolutions whose
`resolution_type` is "modify": for every agent, the design data after
`apply_resolutions` is the fold of `deep_merge` over exactly the
modify-type patches addressed to that agent (`patchesFor`), in order;
Resolutions of any other type (and patches naming agents absent from the
outputs map) change nothing. -/
theorem apply_resolutions_only_modify (outs : List (String × AgentOutput))
    (rs : List Resolution) (a : String) :
    alookup a (apply_resolutions outs rs)
      = (alookup a outs).map (fun o =>
          { o with design_data := (patchesFor a rs).foldl deep_merge o.design_data }) := by
  induction rs generalizing outs with
  | nil =>
    cases h : alookup a outs <;> simp [apply_resolutions, patchesFor, h]
  | cons r rest ih =>
    have hstep : apply_resolutions outs (r :: rest)
        = apply_resolutions
            (if r.resolution_type = "modify" then apply_changes outs r.changes else outs)
            rest := rfl
    rw [hstep]
    by_cases hmod : r.resolution_type = "modify"
    · rw [if_pos hmod, ih, alookup_apply_changes]
      have hpf : patchesFor a (r :: rest)
          = ((r.changes.filter (fun e => e.1 == a)).map Prod.snd) ++ patchesFor a rest := by
        simp [patchesFor, List.filter_cons, hmod]
      rw [hpf]
      cases h : alookup a outs with
      | none => rfl
      | some o => simp [List.foldl_append]
    · rw [if_neg hmod, ih]
      have hpf : patchesFor a (r :: rest) = patchesFor a rest := by
        have hmb : (r.resolution_type == "modify") = false := by
          rw [beq_eq_false_iff_ne]
          exact hmod
        simp [patchesFor, List.filter_cons, hmb]
      rw [hpf]

/-- C4 counterexample: a "relocate" Resolution carrying a nonempty patch for
an agent present in the outputs map is not applied — `apply_resolutions`
leaves the outputs unchanged even though deep-merging the patch would have
changed the agent's design data — contradicting "regardless of its
resolution_type". -/
theorem apply_resolutions_counterexample :
    apply_resolutions [("architectural", sampleArchOut)]
        [⟨"mep_1", "relocate", "reroute", [("architectural", [("x", JValue.num 1)])],
          "conflict_resolver", 0.85⟩]
      = [("architectural", sampleArchOut)]
    ∧ deep_merge sampleArchOut.design_data [("x", JValue.num 1)]
        ≠ sampleArchOut.design_data := by
  constructor
  · rfl
  · intro h
    have h2 : alookup "x" (deep_merge sampleArchOut.design_data [("x", JValue.num 1)])
        = some (JValue.num 1) := by
      simp [sampleArchOut, deep_merge, aset, alookup]
    rw [h] at h2
    simp [sampleArchOut, alookup] at h2

/-! ## C1: run never raises -/

/-- C1 (amended): `run` is a total function — it never raises — and whenever
the body of its `try:` block raises (that is, `runAux` ends in an error:
the architectural agent failing, or integration throwing), `run` returns a
`CoordinationResult` with `success := false`, the error message stored
under the "error" key of metrics, and the agent outputs, resolved
conflicts, and unresolved conflicts accumulated up to the failure point.
Errors of non-architectural agents inside a parallel wave are caught
per-agent by `run_parallel` and do not reach this handler (see the
counterexample). -/
theorem run_failure_semantics (env : CoordEnv) (inputs : JObj) (s : CoordState) (e : String)
    (h : runAux env inputs = (s, Except.error e)) :
    run env inputs
      = ⟨false, s.phase, s.iteration, s.outputs, s.resolved_conflicts, s.all_conflicts,
         [], [("error", JValue.str e)]⟩ := by
  rw [run, h]

/-- Witness for C1: integration forced to throw (the spec's test scenario);
`run` returns `success := false` with the message under "error". -/
theorem run_failure_semantics_witness :
    runAux envForcedThrow []
      = (⟨[], [], [], CoordinationPhase.INTEGRATION, 1⟩,
         Except.error "forced integration failure")
    ∧ run envForcedThrow []
      = ⟨false, CoordinationPhase.INTEGRATION, 1, [], [], [], [],
         [("error", JValue.str "forced integration failure")]⟩ :=
  ⟨rfl, run_failure_semantics envForcedThrow [] _ _ rfl⟩

/-- C1 counterexample: an error in a (non-architectural) agent during the
parallel phase is swallowed by `run_parallel` — the run still returns
`success := true` and no "error" key appears in metrics, so "if any error
occurs in any phase, run returns success=false with the message in
metrics" is false as stated. -/
theorem run_swallowed_agent_error_counterexample :
    failingAgent.runFn [] [] = Except.error "agent x failed"
    ∧ (run envAgentFail []).success = true
    ∧ alookup "error" (run envAgentFail []).metrics = none :=
  ⟨rfl, rfl, rfl⟩
